import Mathlib

/-!
# Verification of the parse-ip endpoint parser

Shallow embedding of `src/lib.rs` (crate `parse-ip`): the `IpVersion` type, its
`Display` and `From<IpAddr>` helpers, and the `parse` pipeline.  The pipeline
delegates address-literal validation to the platform's standard textual-address
parser (Rust `core::net::parser`); that grammar is embedded here as well
(`readIpv4`, `readIpv6`, `readPort`, ...), working over `List Char` with
explicit remaining input.  Character classes (alphanumeric, whitespace) are
modelled over their ASCII ranges.
-/

namespace ParseIp

/-- ASCII whitespace test, modelling `char::is_whitespace` on the inputs the
parser meets (space and the control whitespace 0x09-0x0D). -/
def isWsChar (c : Char) : Bool :=
  decide (c.toNat = 32 ∨ (9 ≤ c.toNat ∧ c.toNat ≤ 13))

/-- ASCII model of `c.is_alphanumeric() || c == '_'` used by the
socket-notation prefix test in `parse`. -/
def isTagChar (c : Char) : Bool :=
  decide ((48 ≤ c.toNat ∧ c.toNat ≤ 57) ∨ (65 ≤ c.toNat ∧ c.toNat ≤ 90) ∨
    (97 ≤ c.toNat ∧ c.toNat ≤ 122) ∨ c.toNat = 95)

/-- `char::to_digit(radix)`: digit value of `c` in the given radix
(decimal digits, then lowercase and uppercase letters). -/
def toDigit? (radix : Nat) (c : Char) : Option Nat :=
  if 48 ≤ c.toNat ∧ c.toNat ≤ 57 then
    if c.toNat - 48 < radix then some (c.toNat - 48) else none
  else if 97 ≤ c.toNat ∧ c.toNat ≤ 122 then
    if c.toNat - 97 + 10 < radix then some (c.toNat - 97 + 10) else none
  else if 65 ≤ c.toNat ∧ c.toNat ≤ 90 then
    if c.toNat - 65 + 10 < radix then some (c.toNat - 65 + 10) else none
  else none

def isRadixDigit (radix : Nat) (c : Char) : Bool :=
  (toDigit? radix c).isSome

/-- Numeric value of a digit string (most significant first). -/
def digitsVal (radix : Nat) (ds : List Char) : Nat :=
  ds.foldl (fun acc c => acc * radix + ((toDigit? radix c).getD 0)) 0

/-- `Parser::read_number`: read a maximal run of digits in `radix`; fail on an
empty run, on more than `maxDigits` digits, on a forbidden leading zero, or on
a value exceeding `maxVal` (the checked-arithmetic overflow bound of the
target integer type). -/
def readNumber (radix : Nat) (maxDigits : Option Nat) (allowZeroPrefix : Bool)
    (maxVal : Nat) (s : List Char) : Option (Nat × List Char) :=
  if s.takeWhile (isRadixDigit radix) = [] then none
  else if (match maxDigits with
           | some m => decide (m < (s.takeWhile (isRadixDigit radix)).length)
           | none => false) then none
  else if allowZeroPrefix = false ∧ (s.takeWhile (isRadixDigit radix)).head? = some '0' ∧
      1 < (s.takeWhile (isRadixDigit radix)).length then none
  else if maxVal < digitsVal radix (s.takeWhile (isRadixDigit radix)) then none
  else some (digitsVal radix (s.takeWhile (isRadixDigit radix)), s.dropWhile (isRadixDigit radix))

/-- `Parser::read_separator`: at index 0 just run `inner`; at later indices
first consume the separator character. -/
def readSep {α : Type} (sep : Char) (i : Nat)
    (inner : List Char → Option (α × List Char)) (s : List Char) :
    Option (α × List Char) :=
  if i = 0 then inner s
  else
    match s with
    | [] => none
    | c :: rest => if c = sep then inner rest else none

/-- `Ipv4Addr` value: four octets. -/
structure Ipv4Addr where
  o1 : Nat
  o2 : Nat
  o3 : Nat
  o4 : Nat
deriving DecidableEq

/-- One dotted-quad octet: up to 3 decimal digits, no leading zero, value at
most 255 (`read_number::<u8>(10, Some(3), false)`). -/
def readOctet (s : List Char) : Option (Nat × List Char) :=
  readNumber 10 (some 3) false 255 s

/-- `Parser::read_ipv4_addr`: four dot-separated octets. -/
def readIpv4 (s : List Char) : Option (Ipv4Addr × List Char) :=
  match readOctet s with
  | none => none
  | some (a, s1) =>
    match readSep '.' 1 readOctet s1 with
    | none => none
    | some (b, s2) =>
      match readSep '.' 2 readOctet s2 with
      | none => none
      | some (c, s3) =>
        match readSep '.' 3 readOctet s3 with
        | none => none
        | some (d, s4) => some (⟨a, b, c, d⟩, s4)

/-- `Ipv6Addr` value: the eight 16-bit groups. -/
structure Ipv6Addr where
  segs : List Nat
deriving DecidableEq

/-- One colon-hex group: up to 4 hex digits
(`read_number::<u16>(16, Some(4), true)`). -/
def readGroup (s : List Char) : Option (Nat × List Char) :=
  readNumber 16 (some 4) true 65535 s

/-- `read_groups` from `Parser::read_ipv6_addr`: read up to `n` more
`:`-separated groups starting at index `i` of a `limit`-slot slice; a trailing
embedded IPv4 address may fill the final two slots.  Returns the groups read,
whether an embedded IPv4 address ended the run, and the remaining input. -/
def readGroupsAux (limit : Nat) : Nat → Nat → List Char → List Nat × Bool × List Char
  | 0, _, s => ([], false, s)
  | Nat.succ n, i, s =>
    let v4res : Option ((Nat × Nat) × List Char) :=
      if i + 1 < limit then
        match readSep ':' i readIpv4 s with
        | some (a, s') => some ((a.o1 * 256 + a.o2, a.o3 * 256 + a.o4), s')
        | none => none
      else none
    match v4res with
    | some ((g1, g2), s') => ([g1, g2], true, s')
    | none =>
      match readSep ':' i readGroup s with
      | some (g, s') =>
        let r := readGroupsAux limit n (i + 1) s'
        (g :: r.1, r.2.1, r.2.2)
      | none => ([], false, s)

def readGroups (limit : Nat) (s : List Char) : List Nat × Bool × List Char :=
  readGroupsAux limit limit 0 s

/-- `Parser::read_ipv6_addr`: groups before an optional `::`, then the tail
groups; the `::` stands for the missing zero groups. -/
def readIpv6 (s : List Char) : Option (Ipv6Addr × List Char) :=
  let r := readGroups 8 s
  let head := r.1
  let headV4 := r.2.1
  let s1 := r.2.2
  if head.length = 8 then some (⟨head⟩, s1)
  else if headV4 then none
  else
    match s1 with
    | ':' :: ':' :: s2 =>
      let t := readGroups (8 - (head.length + 1)) s2
      let tail := t.1
      let s3 := t.2.2
      some (⟨head ++ List.replicate (8 - head.length - tail.length) 0 ++ tail⟩, s3)
    | _ => none

/-- `Ipv4Addr::from_str` (whole-string parse). -/
def ipv4FromStr (s : List Char) : Option Ipv4Addr :=
  match readIpv4 s with
  | some (a, []) => some a
  | _ => none

/-- `Ipv6Addr::from_str` (whole-string parse). -/
def ipv6FromStr (s : List Char) : Option Ipv6Addr :=
  match readIpv6 s with
  | some (a, []) => some a
  | _ => none

/-- The platform `IpAddr` sum type. -/
inductive IpAddr where
  | V4 (a : Ipv4Addr)
  | V6 (a : Ipv6Addr)
deriving DecidableEq

/-- `Parser::read_ip_addr`: IPv4 first, otherwise IPv6. -/
def readIpAddr (s : List Char) : Option (IpAddr × List Char) :=
  match readIpv4 s with
  | some (a, rest) => some (IpAddr.V4 a, rest)
  | none =>
    match readIpv6 s with
    | some (a, rest) => some (IpAddr.V6 a, rest)
    | none => none

/-- `IpAddr::from_str` (whole-string parse). -/
def ipAddrFromStr (s : List Char) : Option IpAddr :=
  match readIpAddr s with
  | some (a, []) => some a
  | _ => none

/-- `Parser::read_port`: a `:` then a decimal `u16` (leading zeros allowed). -/
def readPort (s : List Char) : Option (Nat × List Char) :=
  match s with
  | ':' :: rest => readNumber 10 none true 65535 rest
  | _ => none

/-- `Parser::read_scope_id`: a `%` then a decimal `u32`. -/
def readScopeId (s : List Char) : Option (Nat × List Char) :=
  match s with
  | '%' :: rest => readNumber 10 none true 4294967295 rest
  | _ => none

/-- `Parser::read_socket_addr_v4`: IPv4 address then port. -/
def readSocketV4 (s : List Char) : Option ((Ipv4Addr × Nat) × List Char) :=
  match readIpv4 s with
  | some (a, s1) =>
    match readPort s1 with
    | some (p, s2) => some ((a, p), s2)
    | none => none
  | none => none

/-- `Parser::read_socket_addr_v6`: bracketed IPv6 address with optional
numeric scope id, then port. -/
def readSocketV6 (s : List Char) : Option ((Ipv6Addr × Nat) × List Char) :=
  match s with
  | '[' :: s1 =>
    match readIpv6 s1 with
    | some (a, s2) =>
      let s3 := match readScopeId s2 with
                | some (_, s') => s'
                | none => s2
      match s3 with
      | ']' :: s4 =>
        match readPort s4 with
        | some (p, s5) => some ((a, p), s5)
        | none => none
      | _ => none
    | none => none
  | _ => none

/-- `SocketAddr::from_str`: V4 form first, otherwise V6 form; the whole string
must be consumed.  Only the address and port are kept, as `parse` uses only
`.ip()` and `.port()`. -/
def socketAddrFromStr (s : List Char) : Option (IpAddr × Nat) :=
  let r : Option ((IpAddr × Nat) × List Char) :=
    match readSocketV4 s with
    | some ((a, p), rest) => some ((IpAddr.V4 a, p), rest)
    | none =>
      match readSocketV6 s with
      | some ((a, p), rest) => some ((IpAddr.V6 a, p), rest)
      | none => none
  match r with
  | some (v, []) => some v
  | _ => none

/-- The crate's `IpVersion` enum (the spec's `AddressVersion`). -/
inductive IpVersion where
  | V4 (a : Ipv4Addr)
  | V6 (a : Ipv6Addr)
deriving DecidableEq

/-- `impl From<IpAddr> for IpVersion`. -/
def ipVersionFromIpAddr : IpAddr → IpVersion
  | .V4 a => .V4 a
  | .V6 a => .V6 a

/-- Modelled from the spec: "the inverse conversion back into the native
IP-address value".  The source snapshot under `src/` contains only the forward
`From<IpAddr> for IpVersion` impl; the inverse is the evident variant-preserving
map back. -/
def ipVersionToIpAddr : IpVersion → IpAddr
  | .V4 a => .V4 a
  | .V6 a => .V6 a

/-- Decimal digit character. -/
def decDigit (n : Nat) : Char := Char.ofNat (48 + n)

/-- Lowercase hex digit character. -/
def hexDigitChar (n : Nat) : Char :=
  if n < 10 then Char.ofNat (48 + n) else Char.ofNat (87 + n)

/-- Decimal digits of `n` (most significant first), with explicit fuel for
structural recursion; empty for `n = 0`. -/
def natDigitsAux : Nat → Nat → List Char
  | 0, _ => []
  | Nat.succ fuel, n =>
    if n = 0 then [] else natDigitsAux fuel (n / 10) ++ [decDigit (n % 10)]

/-- Canonical decimal rendering of a natural number (Rust `Display` for
unsigned integers). -/
def natDigits (n : Nat) : List Char :=
  if n = 0 then ['0'] else natDigitsAux n n

/-- Lowercase hex digits of `n` (most significant first), fueled. -/
def natHexAux : Nat → Nat → List Char
  | 0, _ => []
  | Nat.succ fuel, n =>
    if n = 0 then [] else natHexAux fuel (n / 16) ++ [hexDigitChar (n % 16)]

/-- Canonical lowercase hex rendering (Rust `{:x}`). -/
def natHex (n : Nat) : List Char :=
  if n = 0 then ['0'] else natHexAux n n

/-- `Display` for `Ipv4Addr`: dotted decimal. -/
def ipv4Display (a : Ipv4Addr) : List Char :=
  natDigits a.o1 ++ '.' :: natDigits a.o2 ++ '.' :: natDigits a.o3 ++
    '.' :: natDigits a.o4

/-- The longest-run-of-zero-groups scan of `Display` for `Ipv6Addr`: current
run and best run, each as (start, length); a later run must be strictly longer
to replace the best. -/
def zeroRunAux : List Nat → Nat → Nat × Nat → Nat × Nat → Nat × Nat
  | [], _, _, longest => longest
  | g :: rest, i, cur, longest =>
    if g = 0 then
      let cur' : Nat × Nat := (if cur.2 = 0 then i else cur.1, cur.2 + 1)
      let longest' := if longest.2 < cur'.2 then cur' else longest
      zeroRunAux rest (i + 1) cur' longest'
    else
      zeroRunAux rest (i + 1) (0, 0) longest

def zeroRun (gs : List Nat) : Nat × Nat := zeroRunAux gs 0 (0, 0) (0, 0)

/-- Groups joined with `:` separators. -/
def joinColon : List Nat → List Char
  | [] => []
  | [g] => natHex g
  | g :: rest => natHex g ++ ':' :: joinColon rest

/-- `Display` for `Ipv6Addr`: the IPv4-mapped form prints as
`::ffff:a.b.c.d`; otherwise the longest run of at least two zero groups is
compressed to `::`. -/
def ipv6Display (a : Ipv6Addr) : List Char :=
  match a.segs with
  | [0, 0, 0, 0, 0, 65535, g, h] =>
    ':' :: ':' :: 'f' :: 'f' :: 'f' :: 'f' :: ':' ::
      ipv4Display ⟨g / 256, g % 256, h / 256, h % 256⟩
  | gs =>
    let z := zeroRun gs
    if 1 < z.2 then
      joinColon (gs.take z.1) ++ ':' :: ':' :: joinColon (gs.drop (z.1 + z.2))
    else
      joinColon gs

/-- `Display` for `IpVersion`: delegate to the contained address. -/
def ipVersionDisplay : IpVersion → List Char
  | .V4 a => ipv4Display a
  | .V6 a => ipv6Display a

/-- Stage 1 of `parse`: remove every whitespace character. -/
def removeWhitespace (s : List Char) : List Char :=
  s.filter (fun c => !isWsChar c)

/-- First occurrence of the literal `://`: everything after it, if present. -/
def findSchemeSplit : List Char → Option (List Char)
  | [] => none
  | c :: rest =>
    if c = ':' ∧ rest.take 2 = ['/', '/'] then some (rest.drop 2)
    else findSchemeSplit rest

/-- Stage 2 of `parse`: drop everything up to and including the first `://`. -/
def stripScheme (s : List Char) : List Char :=
  (findSchemeSplit s).getD s

/-- Split at the first occurrence of `sep`: the part before and after it. -/
def splitFirst (sep : Char) : List Char → Option (List Char × List Char)
  | [] => none
  | c :: rest =>
    if c = sep then some ([], rest)
    else
      match splitFirst sep rest with
      | some (p, q) => some (c :: p, q)
      | none => none

/-- Stage 3 of `parse`: strip a socket-notation prefix (`inet:`, `tcp4:`, ...)
when the part before the first colon is a nonempty alphanumeric/underscore
tag, something follows the colon, the string has no `%`, and the part after
the colon looks address-shaped. -/
def stripSocket (s : List Char) : List Char :=
  match splitFirst ':' s with
  | none => s
  | some (pre, post) =>
    if pre.all isTagChar ∧ pre ≠ [] ∧ post ≠ [] ∧ ¬ s.contains '%' ∧
        (post.contains '.' ∨ post.contains ':' ∨ post.head? = some '[') then
      post
    else s

/-- Stage 7/8 of `parse`: plain `IpAddr` parse of the remainder, or the final
error. -/
def bareStage (w : List Char) : Except String (IpVersion × Option Nat) :=
  match ipAddrFromStr w with
  | some a => .ok (ipVersionFromIpAddr a, none)
  | none => .error ("Invalid IP address: " ++ String.mk w)

/-- Stages 4-8 of `parse`, on the fully normalized working string: socket
address with port, bracketed IPv6, scoped IPv6, then bare literal. -/
def parseAfterStrip (w : List Char) : Except String (IpVersion × Option Nat) :=
  match socketAddrFromStr w with
  | some (a, p) => .ok (ipVersionFromIpAddr a, some p)
  | none =>
    if w.head? = some '[' ∧ w.getLast? = some ']' then
      match ipv6FromStr ((w.drop 1).dropLast) with
      | some a => .ok (.V6 a, none)
      | none =>
        .error ("Invalid IPv6 address in brackets: " ++ String.mk ((w.drop 1).dropLast))
    else if w.contains '%' then
      match ipv6FromStr (w.takeWhile (fun c => c ≠ '%')) with
      | some a => .ok (.V6 a, none)
      | none => bareStage w
    else bareStage w

/-- The crate's `parse`, over a character list. -/
def parseChars (input : List Char) : Except String (IpVersion × Option Nat) :=
  parseAfterStrip (stripSocket (stripScheme (removeWhitespace input)))

/-- The crate's `parse`. -/
def parse (input : String) : Except String (IpVersion × Option Nat) :=
  parseChars input.data

/-- Character class of a textual IPv6 literal: hex digits, `:`, `.`. -/
def isV6Char (c : Char) : Bool :=
  isRadixDigit 16 c || c = ':' || c = '.'

/-- Hex groups each preceded by a `:` separator (the shape of a `joinColon`
rendering after its first group). -/
def colonPrefixed : List Nat → List Char
  | [] => []
  | g :: rest => ':' :: (natHex g ++ colonPrefixed rest)

/-- The address values `parse` can produce: octets within a byte, eight groups
each within 16 bits. -/
def validIpVersion : IpVersion → Prop
  | .V4 a => a.o1 ≤ 255 ∧ a.o2 ≤ 255 ∧ a.o3 ≤ 255 ∧ a.o4 ≤ 255
  | .V6 a => a.segs.length = 8 ∧ ∀ g ∈ a.segs, g ≤ 65535

/-- Dot-separated decimal components (the IPv4-shaped input family of the
spec's octet properties). -/
def dottedText : List Nat → List Char
  | [] => []
  | [n] => natDigits n
  | n :: rest => natDigits n ++ '.' :: dottedText rest

instance {ε α : Type} [DecidableEq ε] [DecidableEq α] : DecidableEq (Except ε α) :=
  fun x y =>
    match x, y with
    | .ok a, .ok b =>
      if h : a = b then isTrue (by rw [h]) else isFalse (by intro hh; cases hh; exact h rfl)
    | .error a, .error b =>
      if h : a = b then isTrue (by rw [h]) else isFalse (by intro hh; cases hh; exact h rfl)
    | .ok _, .error _ => isFalse (by intro h; cases h)
    | .error _, .ok _ => isFalse (by intro h; cases h)

/-! ### List span helpers -/

theorem head?_append_left {α : Type} (l r : List α) (h : l ≠ []) :
    (l ++ r).head? = l.head? := by
  cases l with
  | nil => exact absurd rfl h
  | cons a as => rfl

theorem mem_takeWhile {p : Char → Bool} :
    ∀ {l : List Char} {c : Char}, c ∈ l.takeWhile p → p c = true := by
  intro l
  induction l with
  | nil => intro c h; cases h
  | cons a as ih =>
    intro c h
    by_cases hp : p a = true
    · rw [List.takeWhile_cons_of_pos hp] at h
      rcases List.mem_cons.mp h with h | h
      · exact h ▸ hp
      · exact ih h
    · rw [List.takeWhile_cons_of_neg (by simpa using hp)] at h
      cases h

theorem head?_dropWhile_false (p : Char → Bool) (l : List Char) (c : Char)
    (h : (l.dropWhile p).head? = some c) : p c = false := by
  have hd := List.head?_dropWhile_not p l
  rw [h] at hd
  exact hd

theorem span_append_eq (p : Char → Bool) (l r : List Char)
    (h1 : ∀ c ∈ l, p c = true) (h2 : ∀ c, r.head? = some c → p c = false) :
    (l ++ r).takeWhile p = l ∧ (l ++ r).dropWhile p = r := by
  constructor
  · rw [List.takeWhile_append_of_pos h1]
    cases r with
    | nil => simp
    | cons c cs =>
      rw [List.takeWhile_cons_of_neg (by simp [h2 c rfl])]
      simp
  · rw [List.dropWhile_append_of_pos h1]
    cases r with
    | nil => rfl
    | cons c cs =>
      rw [List.dropWhile_cons_of_neg (by simp [h2 c rfl])]

theorem span_unique (p : Char → Bool) (d1 r1 d2 r2 : List Char)
    (he : d1 ++ r1 = d2 ++ r2)
    (h1 : ∀ c ∈ d1, p c = true) (hr1 : ∀ c, r1.head? = some c → p c = false)
    (h2 : ∀ c ∈ d2, p c = true) (hr2 : ∀ c, r2.head? = some c → p c = false) :
    d1 = d2 ∧ r1 = r2 := by
  have e1 := span_append_eq p d1 r1 h1 hr1
  have e2 := span_append_eq p d2 r2 h2 hr2
  constructor
  · rw [← e1.1, ← e2.1, he]
  · rw [← e1.2, ← e2.2, he]

/-! ### readNumber lemmas -/

theorem readNumber_eq_of (radix maxVal : Nat) (maxDigits : Option Nat) (allowZP : Bool)
    (ds rest : List Char)
    (hds : ∀ c ∈ ds, isRadixDigit radix c = true)
    (hrest : ∀ c, rest.head? = some c → isRadixDigit radix c = false)
    (hne : ds ≠ [])
    (hlen : ∀ m, maxDigits = some m → ds.length ≤ m)
    (hzp : allowZP = false → ds.head? = some '0' → ds.length = 1)
    (hval : digitsVal radix ds ≤ maxVal) :
    readNumber radix maxDigits allowZP maxVal (ds ++ rest) = some (digitsVal radix ds, rest) := by
  have hspan := span_append_eq (isRadixDigit radix) ds rest hds hrest
  unfold readNumber
  rw [hspan.1, hspan.2, if_neg hne, if_neg, if_neg, if_neg]
  · omega
  · rintro ⟨hz1, hz2, hz3⟩
    have := hzp hz1 hz2
    omega
  · cases maxDigits with
    | none => simp
    | some m =>
      have := hlen m rfl
      simp only [decide_eq_true_eq]
      omega

theorem readNumber_none_of_head (radix maxVal : Nat) (maxDigits : Option Nat) (allowZP : Bool)
    (s : List Char) (h : ∀ c, s.head? = some c → isRadixDigit radix c = false) :
    readNumber radix maxDigits allowZP maxVal s = none := by
  have ht : s.takeWhile (isRadixDigit radix) = [] := by
    cases s with
    | nil => rfl
    | cons c cs => rw [List.takeWhile_cons_of_neg (by simp [h c rfl])]
  unfold readNumber
  rw [ht, if_pos rfl]

theorem readNumber_some_inv (radix maxVal : Nat) (maxDigits : Option Nat) (allowZP : Bool)
    (s : List Char) (v : Nat) (rest : List Char)
    (h : readNumber radix maxDigits allowZP maxVal s = some (v, rest)) :
    ∃ ds, s = ds ++ rest ∧ ds ≠ [] ∧ (∀ c ∈ ds, isRadixDigit radix c = true) ∧
      (∀ c, rest.head? = some c → isRadixDigit radix c = false) ∧
      digitsVal radix ds = v ∧ v ≤ maxVal ∧
      (∀ m, maxDigits = some m → ds.length ≤ m) ∧
      (allowZP = false → ds.head? = some '0' → ds.length = 1) := by
  unfold readNumber at h
  split at h
  · cases h
  rename_i hne
  split at h
  · cases h
  rename_i hmd
  split at h
  · cases h
  rename_i hzp
  split at h
  · cases h
  rename_i hval
  injection h with h
  injection h with hv hr
  have hlen1 : (s.takeWhile (isRadixDigit radix)).length ≥ 1 := by
    cases hx : s.takeWhile (isRadixDigit radix) with
    | nil => exact absurd hx hne
    | cons y ys => simp
  refine ⟨s.takeWhile (isRadixDigit radix), ?_, hne, ?_, ?_, hv, ?_, ?_, ?_⟩
  · rw [← hr, List.takeWhile_append_dropWhile]
  · intro c hc; exact mem_takeWhile hc
  · intro c hc; rw [← hr] at hc; exact head?_dropWhile_false _ _ _ hc
  · omega
  · intro m hm
    subst hm
    simp only [decide_eq_true_eq] at hmd
    omega
  · intro hz h0
    by_contra hcon
    exact hzp ⟨hz, h0, by omega⟩

theorem readNumber_none_of_big (radix maxVal : Nat) (maxDigits : Option Nat) (allowZP : Bool)
    (s : List Char) (hds : ∀ c ∈ s, isRadixDigit radix c = true)
    (hval : maxVal < digitsVal radix s) :
    readNumber radix maxDigits allowZP maxVal s = none := by
  cases h : readNumber radix maxDigits allowZP maxVal s with
  | none => rfl
  | some r =>
    obtain ⟨ds, hs, _, _, hrest, hv, hle, _, _⟩ :=
      readNumber_some_inv radix maxVal maxDigits allowZP s r.1 r.2 (by rw [h])
    -- the digit span must be all of s, so the value bound is contradicted
    have : r.2 = [] := by
      cases hr2 : r.2 with
      | nil => rfl
      | cons c cs =>
        have hc : c ∈ s := by rw [hs, hr2]; exact List.mem_append_right _ (List.mem_cons_self _ _)
        have := hrest c (by rw [hr2]; rfl)
        rw [hds c hc] at this
        cases this
    rw [this, List.append_nil] at hs
    subst hs
    omega

/-! ### Character-class facts -/

theorem isRadixDigit_ten_iff (c : Char) :
    isRadixDigit 10 c = true ↔ (48 ≤ c.toNat ∧ c.toNat ≤ 57) := by
  unfold isRadixDigit toDigit?
  split
  · rename_i h
    rw [if_pos (by omega)]
    simpa using h
  · rename_i h
    constructor
    · intro hh
      exfalso
      split at hh
      · rename_i h2
        rw [if_neg (by omega)] at hh
        simp at hh
      · split at hh
        · rename_i h3
          rw [if_neg (by omega)] at hh
          simp at hh
        · simp at hh
    · intro hh
      exact absurd hh h

theorem isRadixDigit_sixteen_iff (c : Char) :
    isRadixDigit 16 c = true ↔
      ((48 ≤ c.toNat ∧ c.toNat ≤ 57) ∨ (97 ≤ c.toNat ∧ c.toNat ≤ 102) ∨
        (65 ≤ c.toNat ∧ c.toNat ≤ 70)) := by
  unfold isRadixDigit toDigit?
  split
  · rename_i h
    rw [if_pos (by omega)]
    simp
    omega
  · rename_i h
    split
    · rename_i h2
      by_cases h3 : c.toNat ≤ 102
      · rw [if_pos (by omega)]
        simp
        omega
      · rw [if_neg (by omega)]
        simp
        omega
    · rename_i h2
      split
      · rename_i h4
        by_cases h5 : c.toNat ≤ 70
        · rw [if_pos (by omega)]
          simp
          omega
        · rw [if_neg (by omega)]
          simp
          omega
      · simp
        omega

theorem isRadixDigit_ten_to_sixteen (c : Char) (h : isRadixDigit 10 c = true) :
    isRadixDigit 16 c = true := by
  rw [isRadixDigit_ten_iff] at h
  rw [isRadixDigit_sixteen_iff]
  omega

theorem isV6Char_cases (c : Char) (h : isV6Char c = true) :
    isRadixDigit 16 c = true ∨ c = ':' ∨ c = '.' := by
  simp only [isV6Char, Bool.or_eq_true, decide_eq_true_eq] at h
  tauto

theorem isV6Char_of_digit (c : Char) (h : isRadixDigit 16 c = true) : isV6Char c = true := by
  simp [isV6Char, h]

theorem isV6Char_toNat (c : Char) (h : isV6Char c = true) :
    (48 ≤ c.toNat ∧ c.toNat ≤ 57) ∨ (97 ≤ c.toNat ∧ c.toNat ≤ 102) ∨
      (65 ≤ c.toNat ∧ c.toNat ≤ 70) ∨ c.toNat = 58 ∨ c.toNat = 46 := by
  rcases isV6Char_cases c h with h1 | h1 | h1
  · rcases (isRadixDigit_sixteen_iff c).mp h1 with h2 | h2 | h2 <;> tauto
  · subst h1; tauto
  · subst h1; tauto

theorem isWsChar_false_of (c : Char) (h : 33 ≤ c.toNat) : isWsChar c = false := by
  simp only [isWsChar, decide_eq_false_iff_not]
  omega

theorem isV6Char_not_ws (c : Char) (h : isV6Char c = true) : isWsChar c = false := by
  have := isV6Char_toNat c h
  exact isWsChar_false_of c (by omega)

theorem isV6Char_ne_chars (c : Char) (h : isV6Char c = true) :
    c ≠ '[' ∧ c ≠ '%' ∧ c ≠ '/' ∧ c ≠ ']' := by
  refine ⟨?_, ?_, ?_, ?_⟩ <;> rintro rfl <;> exact absurd h (by decide)

theorem isTagChar_toNat (c : Char) (h : isTagChar c = true) :
    (48 ≤ c.toNat ∧ c.toNat ≤ 57) ∨ (65 ≤ c.toNat ∧ c.toNat ≤ 90) ∨
      (97 ≤ c.toNat ∧ c.toNat ≤ 122) ∨ c.toNat = 95 := by
  simpa only [isTagChar, decide_eq_true_eq] using h

theorem isTagChar_not_ws (c : Char) (h : isTagChar c = true) : isWsChar c = false := by
  have := isTagChar_toNat c h
  exact isWsChar_false_of c (by omega)

theorem isTagChar_ne_chars (c : Char) (h : isTagChar c = true) :
    c ≠ ':' ∧ c ≠ '/' ∧ c ≠ '%' := by
  refine ⟨?_, ?_, ?_⟩ <;> rintro rfl <;> exact absurd h (by decide)

theorem digit_ne_bracket (c : Char) (h : isRadixDigit 10 c = true) : c ≠ ']' := by
  rintro rfl
  exact absurd h (by decide)

/-! ### Decimal and hex rendering -/

theorem isRadixDigit_decDigit : ∀ d, d < 10 → isRadixDigit 10 (decDigit d) = true := by decide

theorem toDigit_decDigit : ∀ d, d < 10 → toDigit? 10 (decDigit d) = some d := by decide

theorem decDigit_eq_zero_iff : ∀ d, d < 10 → (decDigit d = '0' ↔ d = 0) := by decide

theorem isRadixDigit_hexDigitChar : ∀ d, d < 16 → isRadixDigit 16 (hexDigitChar d) = true := by
  decide

theorem toDigit_hexDigitChar : ∀ d, d < 16 → toDigit? 16 (hexDigitChar d) = some d := by decide

theorem digitsVal_append_single (radix : Nat) (ds : List Char) (c : Char) :
    digitsVal radix (ds ++ [c]) = digitsVal radix ds * radix + (toDigit? radix c).getD 0 := by
  unfold digitsVal
  rw [List.foldl_append]
  rfl

theorem natDigitsAux_zero (fuel : Nat) : natDigitsAux fuel 0 = [] := by
  cases fuel <;> rfl

theorem natDigitsAux_spec : ∀ fuel n, n ≤ fuel → n ≠ 0 →
    (natDigitsAux fuel n ≠ [] ∧
      (∀ c ∈ natDigitsAux fuel n, isRadixDigit 10 c = true) ∧
      digitsVal 10 (natDigitsAux fuel n) = n ∧
      (∀ c, (natDigitsAux fuel n).head? = some c → c ≠ '0')) := by
  intro fuel
  induction fuel with
  | zero => intro n h1 h2; omega
  | succ f ih =>
    intro n h1 h2
    simp only [natDigitsAux]
    rw [if_neg h2]
    by_cases hq : n / 10 = 0
    · rw [hq, natDigitsAux_zero, List.nil_append]
      refine ⟨by simp, ?_, ?_, ?_⟩
      · intro c hc
        rw [List.mem_singleton] at hc
        subst hc
        exact isRadixDigit_decDigit _ (by omega)
      · rw [show ([decDigit (n % 10)] : List Char) = [] ++ [decDigit (n % 10)] from rfl,
          digitsVal_append_single, toDigit_decDigit (n % 10) (by omega)]
        simp [digitsVal]
        omega
      · intro c hc heq
        injection hc with hc
        subst hc
        have := (decDigit_eq_zero_iff (n % 10) (by omega)).mp heq
        omega
    · have hrec := ih (n / 10) (by omega) hq
      refine ⟨by simp [hrec.1], ?_, ?_, ?_⟩
      · intro c hc
        rcases List.mem_append.mp hc with hc | hc
        · exact hrec.2.1 c hc
        · rw [List.mem_singleton] at hc
          subst hc
          exact isRadixDigit_decDigit _ (by omega)
      · rw [digitsVal_append_single, hrec.2.2.1, toDigit_decDigit (n % 10) (by omega)]
        simp
        omega
      · intro c hc
        rw [head?_append_left _ _ hrec.1] at hc
        exact hrec.2.2.2 c hc

theorem natDigits_spec (n : Nat) :
    natDigits n ≠ [] ∧ (∀ c ∈ natDigits n, isRadixDigit 10 c = true) ∧
      digitsVal 10 (natDigits n) = n ∧
      (∀ c, (natDigits n).head? = some c → c = '0' → n = 0) := by
  unfold natDigits
  by_cases h : n = 0
  · subst h
    rw [if_pos rfl]
    refine ⟨by simp, ?_, by decide, by simp⟩
    intro c hc
    rw [List.mem_singleton] at hc
    subst hc
    decide
  · rw [if_neg h]
    have hs := natDigitsAux_spec n n le_rfl h
    refine ⟨hs.1, hs.2.1, hs.2.2.1, ?_⟩
    intro c hc hc0
    subst hc0
    exact absurd rfl (hs.2.2.2 '0' hc)

theorem natDigitsAux_length : ∀ fuel n k, n ≤ fuel → n < 10 ^ k →
    (natDigitsAux fuel n).length ≤ k := by
  intro fuel
  induction fuel with
  | zero => intro n k _ _; simp [natDigitsAux]
  | succ f ih =>
    intro n k h1 h2
    simp only [natDigitsAux]
    split
    · simp
    · rename_i hn
      cases k with
      | zero =>
        exfalso
        simp at h2
        omega
      | succ k' =>
        have hq : n / 10 < 10 ^ k' := by
          rw [Nat.div_lt_iff_lt_mul (by norm_num)]
          calc n < 10 ^ (k' + 1) := h2
            _ = 10 ^ k' * 10 := by rw [Nat.pow_succ]
        have := ih (n / 10) k' (by omega) hq
        rw [List.length_append]
        simp
        omega

theorem natDigits_length_le (n k : Nat) (hk : 1 ≤ k) (h : n < 10 ^ k) :
    (natDigits n).length ≤ k := by
  unfold natDigits
  split
  · simpa using hk
  · exact natDigitsAux_length n n k le_rfl h

theorem readOctet_natDigits (n : Nat) (hn : n ≤ 255) (rest : List Char)
    (hrest : ∀ c, rest.head? = some c → isRadixDigit 10 c = false) :
    readOctet (natDigits n ++ rest) = some (n, rest) := by
  have hs := natDigits_spec n
  unfold readOctet
  rw [readNumber_eq_of 10 255 (some 3) false (natDigits n) rest hs.2.1 hrest hs.1 ?_ ?_ ?_,
    hs.2.2.1]
  · intro m hm
    injection hm with hm
    subst hm
    exact natDigits_length_le n 3 (by norm_num) (by omega)
  · intro _ hzero
    have h0 := hs.2.2.2 '0' hzero rfl
    subst h0
    rfl
  · rw [hs.2.2.1]
    omega

theorem natHexAux_zero (fuel : Nat) : natHexAux fuel 0 = [] := by
  cases fuel <;> rfl

theorem natHexAux_spec : ∀ fuel n, n ≤ fuel → n ≠ 0 →
    (natHexAux fuel n ≠ [] ∧
      (∀ c ∈ natHexAux fuel n, isRadixDigit 16 c = true) ∧
      digitsVal 16 (natHexAux fuel n) = n) := by
  intro fuel
  induction fuel with
  | zero => intro n h1 h2; omega
  | succ f ih =>
    intro n h1 h2
    simp only [natHexAux]
    rw [if_neg h2]
    by_cases hq : n / 16 = 0
    · rw [hq, natHexAux_zero, List.nil_append]
      refine ⟨by simp, ?_, ?_⟩
      · intro c hc
        rw [List.mem_singleton] at hc
        subst hc
        exact isRadixDigit_hexDigitChar _ (by omega)
      · rw [show ([hexDigitChar (n % 16)] : List Char) = [] ++ [hexDigitChar (n % 16)] from rfl,
          digitsVal_append_single, toDigit_hexDigitChar (n % 16) (by omega)]
        simp [digitsVal]
        omega
    · have hrec := ih (n / 16) (by omega) hq
      refine ⟨by simp [hrec.1], ?_, ?_⟩
      · intro c hc
        rcases List.mem_append.mp hc with hc | hc
        · exact hrec.2.1 c hc
        · rw [List.mem_singleton] at hc
          subst hc
          exact isRadixDigit_hexDigitChar _ (by omega)
      · rw [digitsVal_append_single, hrec.2.2, toDigit_hexDigitChar (n % 16) (by omega)]
        simp
        omega

theorem natHex_spec (n : Nat) :
    natHex n ≠ [] ∧ (∀ c ∈ natHex n, isRadixDigit 16 c = true) ∧
      digitsVal 16 (natHex n) = n := by
  unfold natHex
  by_cases h : n = 0
  · subst h
    rw [if_pos rfl]
    refine ⟨by simp, ?_, by decide⟩
    intro c hc
    rw [List.mem_singleton] at hc
    subst hc
    decide
  · rw [if_neg h]
    exact natHexAux_spec n n le_rfl h

theorem natHexAux_length : ∀ fuel n k, n ≤ fuel → n < 16 ^ k →
    (natHexAux fuel n).length ≤ k := by
  intro fuel
  induction fuel with
  | zero => intro n k _ _; simp [natHexAux]
  | succ f ih =>
    intro n k h1 h2
    simp only [natHexAux]
    split
    · simp
    · rename_i hn
      cases k with
      | zero =>
        exfalso
        simp at h2
        omega
      | succ k' =>
        have hq : n / 16 < 16 ^ k' := by
          rw [Nat.div_lt_iff_lt_mul (by norm_num)]
          calc n < 16 ^ (k' + 1) := h2
            _ = 16 ^ k' * 16 := by rw [Nat.pow_succ]
        have := ih (n / 16) k' (by omega) hq
        rw [List.length_append]
        simp
        omega

theorem natHex_length_le (n k : Nat) (hk : 1 ≤ k) (h : n < 16 ^ k) :
    (natHex n).length ≤ k := by
  unfold natHex
  split
  · simpa using hk
  · exact natHexAux_length n n k le_rfl h

theorem readGroup_natHex (n : Nat) (hn : n ≤ 65535) (rest : List Char)
    (hrest : ∀ c, rest.head? = some c → isRadixDigit 16 c = false) :
    readGroup (natHex n ++ rest) = some (n, rest) := by
  have hs := natHex_spec n
  unfold readGroup
  rw [readNumber_eq_of 16 65535 (some 4) true (natHex n) rest hs.2.1 hrest hs.1 ?_ ?_ ?_,
    hs.2.2]
  · intro m hm
    injection hm with hm
    subst hm
    exact natHex_length_le n 4 (by norm_num) (by omega)
  · intro h
    cases h
  · rw [hs.2.2]
    omega

/-! ### readIpv4 lemmas -/

theorem readSep_pos_cons {α : Type} (sep c : Char) (i : Nat) (hi : i ≠ 0)
    (inner : List Char → Option (α × List Char)) (rest : List Char) :
    readSep sep i inner (c :: rest) = if c = sep then inner rest else none := by
  unfold readSep
  rw [if_neg hi]

theorem readSep_pos_nil {α : Type} (sep : Char) (i : Nat) (hi : i ≠ 0)
    (inner : List Char → Option (α × List Char)) :
    readSep sep i inner [] = none := by
  unfold readSep
  rw [if_neg hi]

theorem dot_head_not_digit (l : List Char) :
    ∀ c, ('.' :: l).head? = some c → isRadixDigit 10 c = false := by
  intro c hc
  injection hc with hc
  subst hc
  decide

theorem readIpv4_display (a : Ipv4Addr) (h1 : a.o1 ≤ 255) (h2 : a.o2 ≤ 255) (h3 : a.o3 ≤ 255)
    (h4 : a.o4 ≤ 255) (rest : List Char)
    (hrest : ∀ c, rest.head? = some c → isRadixDigit 10 c = false) :
    readIpv4 (ipv4Display a ++ rest) = some (a, rest) := by
  have e1 := readOctet_natDigits a.o1 h1
    ('.' :: (natDigits a.o2 ++ ('.' :: (natDigits a.o3 ++ ('.' :: (natDigits a.o4 ++ rest))))))
    (dot_head_not_digit _)
  have e2 := readOctet_natDigits a.o2 h2
    ('.' :: (natDigits a.o3 ++ ('.' :: (natDigits a.o4 ++ rest)))) (dot_head_not_digit _)
  have e3 := readOctet_natDigits a.o3 h3 ('.' :: (natDigits a.o4 ++ rest)) (dot_head_not_digit _)
  have e4 := readOctet_natDigits a.o4 h4 rest hrest
  simp only [ipv4Display, List.append_assoc, List.cons_append]
  simp only [readIpv4, e1, readSep_pos_cons '.' '.' 1 (by omega), if_pos rfl, if_true, e2,
    readSep_pos_cons '.' '.' 2 (by omega), e3, readSep_pos_cons '.' '.' 3 (by omega), e4]

theorem readSep_pos_some_inv {α : Type} (sep : Char) (i : Nat) (hi : i ≠ 0)
    (inner : List Char → Option (α × List Char)) (s : List Char) (v : α) (rest : List Char)
    (h : readSep sep i inner s = some (v, rest)) :
    ∃ s', s = sep :: s' ∧ inner s' = some (v, rest) := by
  unfold readSep at h
  rw [if_neg hi] at h
  split at h
  · cases h
  · rename_i c cs
    split at h
    · rename_i hc
      subst hc
      exact ⟨cs, rfl, h⟩
    · cases h

theorem readIpv4_some_struct (s : List Char) (a : Ipv4Addr) (rest : List Char)
    (h : readIpv4 s = some (a, rest)) :
    ∃ d1 d2 d3 d4 : List Char,
      s = d1 ++ '.' :: d2 ++ '.' :: d3 ++ '.' :: d4 ++ rest ∧
      ((∀ c ∈ d1, isRadixDigit 10 c = true) ∧ (∀ c ∈ d2, isRadixDigit 10 c = true) ∧
        (∀ c ∈ d3, isRadixDigit 10 c = true) ∧ (∀ c ∈ d4, isRadixDigit 10 c = true)) ∧
      (d1 ≠ [] ∧ d2 ≠ [] ∧ d3 ≠ [] ∧ d4 ≠ []) ∧
      (digitsVal 10 d1 = a.o1 ∧ digitsVal 10 d2 = a.o2 ∧ digitsVal 10 d3 = a.o3 ∧
        digitsVal 10 d4 = a.o4) ∧
      (a.o1 ≤ 255 ∧ a.o2 ≤ 255 ∧ a.o3 ≤ 255 ∧ a.o4 ≤ 255) ∧
      (∀ c, rest.head? = some c → isRadixDigit 10 c = false) := by
  unfold readIpv4 at h
  split at h
  · cases h
  rename_i v1 s1 e1
  split at h
  · cases h
  rename_i v2 s2 e2
  split at h
  · cases h
  rename_i v3 s3 e3
  split at h
  · cases h
  rename_i v4 s4 e4
  injection h with h
  injection h with ha hs4
  subst hs4
  obtain ⟨q2, hq2, e2'⟩ := readSep_pos_some_inv '.' 1 (by omega) readOctet s1 v2 s2 e2
  obtain ⟨q3, hq3, e3'⟩ := readSep_pos_some_inv '.' 2 (by omega) readOctet s2 v3 s3 e3
  obtain ⟨q4, hq4, e4'⟩ := readSep_pos_some_inv '.' 3 (by omega) readOctet s3 v4 s4 e4
  obtain ⟨d1, hd1, hne1, hdig1, _, hv1, hb1, _, _⟩ :=
    readNumber_some_inv 10 255 (some 3) false s v1 s1 e1
  obtain ⟨d2, hd2, hne2, hdig2, _, hv2, hb2, _, _⟩ :=
    readNumber_some_inv 10 255 (some 3) false q2 v2 s2 e2'
  obtain ⟨d3, hd3, hne3, hdig3, _, hv3, hb3, _, _⟩ :=
    readNumber_some_inv 10 255 (some 3) false q3 v3 s3 e3'
  obtain ⟨d4, hd4, hne4, hdig4, hrest4, hv4, hb4, _, _⟩ :=
    readNumber_some_inv 10 255 (some 3) false q4 v4 s4 e4'
  refine ⟨d1, d2, d3, d4, ?_, ⟨hdig1, hdig2, hdig3, hdig4⟩, ⟨hne1, hne2, hne3, hne4⟩,
    ?_, ?_, hrest4⟩
  · rw [hd1, hq2, hd2, hq3, hd3, hq4, hd4]
    simp [List.append_assoc]
  · rw [← ha]
    exact ⟨hv1, hv2, hv3, hv4⟩
  · rw [← ha]
    exact ⟨hb1, hb2, hb3, hb4⟩

theorem readIpv4_consumed (s : List Char) (a : Ipv4Addr) (rest : List Char)
    (h : readIpv4 s = some (a, rest)) :
    ∃ p, s = p ++ rest ∧ p ≠ [] ∧ (∀ c ∈ p, isRadixDigit 10 c = true ∨ c = '.') ∧ '.' ∈ p ∧
      (∀ c, rest.head? = some c → isRadixDigit 10 c = false) := by
  obtain ⟨d1, d2, d3, d4, hs, hdig, hne, _, _, hrest⟩ := readIpv4_some_struct s a rest h
  refine ⟨d1 ++ '.' :: d2 ++ '.' :: d3 ++ '.' :: d4, ?_, ?_, ?_, ?_, hrest⟩
  · simp only [hs, List.append_assoc, List.cons_append]
  · simp
  · intro c hc
    rcases List.mem_append.mp hc with hc | hc4
    · rcases List.mem_append.mp hc with hc | hc3
      · rcases List.mem_append.mp hc with hc1 | hc2
        · exact Or.inl (hdig.1 c hc1)
        · rcases List.mem_cons.mp hc2 with rfl | hc2
          · exact Or.inr rfl
          · exact Or.inl (hdig.2.1 c hc2)
      · rcases List.mem_cons.mp hc3 with rfl | hc3
        · exact Or.inr rfl
        · exact Or.inl (hdig.2.2.1 c hc3)
    · rcases List.mem_cons.mp hc4 with rfl | hc4
      · exact Or.inr rfl
      · exact Or.inl (hdig.2.2.2 c hc4)
  · simp

theorem readIpv4_none_of_no_dot (s : List Char) (h : '.' ∉ s) : readIpv4 s = none := by
  cases he : readIpv4 s with
  | none => rfl
  | some r =>
    obtain ⟨p, hs, _, _, hdot, _⟩ := readIpv4_consumed s r.1 r.2 (by rw [he])
    exact absurd (hs ▸ List.mem_append_left _ hdot) h

theorem readIpv4_none_of_head (s : List Char)
    (h : ∀ c, s.head? = some c → isRadixDigit 10 c = false) : readIpv4 s = none := by
  have h0 : readOctet s = none := readNumber_none_of_head _ _ _ _ s h
  simp only [readIpv4, h0]

/-! ### readGroups on rendered hex groups -/

theorem joinColon_eq (g : Nat) (t : List Nat) :
    joinColon (g :: t) = natHex g ++ colonPrefixed t := by
  induction t generalizing g with
  | nil => simp [joinColon, colonPrefixed]
  | cons h t' ih =>
    rw [show joinColon (g :: h :: t') = natHex g ++ ':' :: joinColon (h :: t') from rfl, ih h,
      colonPrefixed]

theorem mem_colonPrefixed (gs : List Nat) (c : Char) (hc : c ∈ colonPrefixed gs) :
    isRadixDigit 16 c = true ∨ c = ':' := by
  induction gs with
  | nil => cases hc
  | cons g t ih =>
    simp only [colonPrefixed, List.mem_cons, List.mem_append] at hc
    rcases hc with rfl | hc | hc
    · exact Or.inr rfl
    · exact Or.inl ((natHex_spec g).2.1 c hc)
    · exact ih hc

theorem dot_not_mem_of_hex_colon (l : List Char)
    (h : ∀ c ∈ l, isRadixDigit 16 c = true ∨ c = ':') : '.' ∉ l := by
  intro hm
  rcases h '.' hm with hd | hd
  · exact absurd hd (by decide)
  · exact absurd hd (by decide)

theorem hexJoin_class (g : Nat) (t : List Nat) (c : Char)
    (hc : c ∈ natHex g ++ colonPrefixed t) : isRadixDigit 16 c = true ∨ c = ':' := by
  rcases List.mem_append.mp hc with hc | hc
  · exact Or.inl ((natHex_spec g).2.1 c hc)
  · exact mem_colonPrefixed t c hc

theorem colonPrefixed_head (gs : List Nat) (c : Char)
    (hc : (colonPrefixed gs).head? = some c) : c = ':' := by
  cases gs with
  | nil => cases hc
  | cons g t =>
    injection hc with hc
    exact hc.symm

theorem colonPrefixed_head_not_hex (gs : List Nat) :
    ∀ c, (colonPrefixed gs).head? = some c → isRadixDigit 16 c = false := by
  intro c hc
  rw [colonPrefixed_head gs c hc]
  decide

theorem readGroupsAux_nil (limit n i : Nat) : readGroupsAux limit n i [] = ([], false, []) := by
  cases n with
  | zero => rfl
  | succ n' =>
    have hsep : ∀ (α : Type) (inner : List Char → Option (α × List Char)),
        inner [] = none → readSep ':' i inner [] = none := by
      intro α inner hin
      unfold readSep
      split
      · exact hin
      · rfl
    simp only [readGroupsAux, hsep _ readIpv4 rfl, hsep _ readGroup rfl, ite_self]

theorem readGroupsAux_colonPrefixed : ∀ (gs : List Nat) (n i limit : Nat),
    gs.length ≤ n → (∀ g ∈ gs, g ≤ 65535) → i ≠ 0 →
    readGroupsAux limit n i (colonPrefixed gs) = (gs, false, []) := by
  intro gs
  induction gs with
  | nil =>
    intro n i limit _ _ _
    exact readGroupsAux_nil limit n i
  | cons g t ih =>
    intro n i limit hlen hb hi
    cases n with
    | zero => simp at hlen
    | succ n' =>
      show readGroupsAux limit (n' + 1) i (':' :: (natHex g ++ colonPrefixed t)) =
        (g :: t, false, [])
      have hv4 : readSep ':' i readIpv4 (':' :: (natHex g ++ colonPrefixed t)) = none := by
        rw [readSep_pos_cons ':' ':' i hi, if_pos rfl]
        exact readIpv4_none_of_no_dot _ (dot_not_mem_of_hex_colon _ (hexJoin_class g t))
      have hg : readSep ':' i readGroup (':' :: (natHex g ++ colonPrefixed t)) =
          some (g, colonPrefixed t) := by
        rw [readSep_pos_cons ':' ':' i hi, if_pos rfl]
        exact readGroup_natHex g (hb g (List.mem_cons_self g t)) _ (colonPrefixed_head_not_hex t)
      simp only [readGroupsAux, hv4, hg, ite_self]
      rw [ih n' (i + 1) limit (by simpa using hlen)
        (fun x hx => hb x (List.mem_cons_of_mem _ hx)) (by omega)]

theorem readGroupsAux_joinColon (gs : List Nat) (n limit : Nat) (hne : gs ≠ [])
    (hlen : gs.length ≤ n) (hb : ∀ g ∈ gs, g ≤ 65535) :
    readGroupsAux limit n 0 (joinColon gs) = (gs, false, []) := by
  cases gs with
  | nil => exact absurd rfl hne
  | cons g t =>
    cases n with
    | zero => simp at hlen
    | succ n' =>
      rw [joinColon_eq]
      have hv4 : readSep ':' 0 readIpv4 (natHex g ++ colonPrefixed t) = none := by
        unfold readSep
        rw [if_pos rfl]
        exact readIpv4_none_of_no_dot _ (dot_not_mem_of_hex_colon _ (hexJoin_class g t))
      have hg : readSep ':' 0 readGroup (natHex g ++ colonPrefixed t) =
          some (g, colonPrefixed t) := by
        unfold readSep
        rw [if_pos rfl]
        exact readGroup_natHex g (hb g (List.mem_cons_self g t)) _ (colonPrefixed_head_not_hex t)
      simp only [readGroupsAux, hv4, hg, ite_self]
      rw [readGroupsAux_colonPrefixed t n' 1 limit (by simpa using hlen)
        (fun x hx => hb x (List.mem_cons_of_mem _ hx)) (by omega)]

/-! ### zeroRun facts -/

theorem zeroRunAux_inv (full : List Nat) :
    ∀ (gs : List Nat) (i : Nat) (cur longest : Nat × Nat),
      full.drop i = gs →
      (cur.2 ≠ 0 → cur.1 + cur.2 = i) →
      cur.1 + cur.2 ≤ full.length →
      (∀ j < cur.2, full.getD (cur.1 + j) 1 = 0) →
      longest.1 + longest.2 ≤ full.length →
      (∀ j < longest.2, full.getD (longest.1 + j) 1 = 0) →
      ((zeroRunAux gs i cur longest).1 + (zeroRunAux gs i cur longest).2 ≤ full.length ∧
        ∀ j < (zeroRunAux gs i cur longest).2,
          full.getD ((zeroRunAux gs i cur longest).1 + j) 1 = 0) := by
  intro gs
  induction gs with
  | nil =>
    intro i cur longest _ _ _ _ h5 h6
    exact ⟨h5, h6⟩
  | cons g rest ih =>
    intro i cur longest hdrop h2 h3 h4 h5 h6
    have hip : i < full.length := by
      by_contra hcon
      rw [List.drop_eq_nil_of_le (by omega)] at hdrop
      cases hdrop
    have hgi : full.getD i 1 = g := by
      have h1 : (full.drop i).head? = some g := by rw [hdrop]; rfl
      rw [List.head?_drop] at h1
      simp [List.getD_eq_getElem?_getD, h1]
    have hdrop' : full.drop (i + 1) = rest := by
      have : full.drop (i + 1) = (full.drop i).drop 1 := by rw [List.drop_drop]
      rw [this, hdrop]
      rfl
    simp only [zeroRunAux]
    split
    · rename_i hg0
      subst hg0
      have hcsum : (if cur.2 = 0 then i else cur.1) + (cur.2 + 1) = i + 1 := by
        by_cases hz : cur.2 = 0
        · rw [if_pos hz]
          omega
        · rw [if_neg hz]
          have := h2 hz
          omega
      have hcrun : ∀ j < cur.2 + 1, full.getD ((if cur.2 = 0 then i else cur.1) + j) 1 = 0 := by
        intro j hj
        by_cases hz : cur.2 = 0
        · have hj0 : j = 0 := by omega
          subst hj0
          rw [if_pos hz]
          simpa using hgi
        · rw [if_neg hz]
          rcases Nat.lt_or_ge j cur.2 with hlt | hge
          · exact h4 j hlt
          · have hj' : j = cur.2 := by omega
            subst hj'
            rw [h2 hz]
            exact hgi
      apply ih (i + 1) _ _ hdrop'
      · intro _
        exact hcsum
      · show (if cur.2 = 0 then i else cur.1) + (cur.2 + 1) ≤ full.length
        omega
      · exact hcrun
      · show (if longest.2 < cur.2 + 1 then
            ((if cur.2 = 0 then i else cur.1 : Nat), cur.2 + 1) else longest).1 +
          (if longest.2 < cur.2 + 1 then
            ((if cur.2 = 0 then i else cur.1 : Nat), cur.2 + 1) else longest).2 ≤ full.length
        split
        · show (if cur.2 = 0 then i else cur.1) + (cur.2 + 1) ≤ full.length
          omega
        · exact h5
      · show ∀ j < (if longest.2 < cur.2 + 1 then
            ((if cur.2 = 0 then i else cur.1 : Nat), cur.2 + 1) else longest).2,
          full.getD ((if longest.2 < cur.2 + 1 then
            ((if cur.2 = 0 then i else cur.1 : Nat), cur.2 + 1) else longest).1 + j) 1 = 0
        split
        · exact hcrun
        · exact h6
    · exact ih (i + 1) (0, 0) longest hdrop' (by simp) (by omega) (by omega) h5 h6

theorem zeroRun_spec (gs : List Nat) :
    (zeroRun gs).1 + (zeroRun gs).2 ≤ gs.length ∧
      ∀ j < (zeroRun gs).2, gs.getD ((zeroRun gs).1 + j) 1 = 0 := by
  exact zeroRunAux_inv gs gs 0 (0, 0) (0, 0) rfl (by simp) (by simp) (by omega)
    (by simp) (by omega)

theorem take_eq_replicate_zero : ∀ (l : List Nat) (k : Nat), k ≤ l.length →
    (∀ j < k, l.getD j 1 = 0) → l.take k = List.replicate k 0 := by
  intro l
  induction l with
  | nil =>
    intro k hk _
    simp at hk
    subst hk
    rfl
  | cons a t ih =>
    intro k hk h
    cases k with
    | zero => rfl
    | succ k' =>
      have h0 : a = 0 := by simpa using h 0 (by omega)
      subst h0
      rw [List.take_succ_cons, List.replicate_succ]
      congr 1
      exact ih k' (by simpa using hk) (fun j hj => by simpa using h (j + 1) (by omega))

/-! ### IPv6 display parses back -/

theorem colon_head_not_digit (radix : Nat) (l : List Char) :
    ∀ c, (':' :: l).head? = some c → isRadixDigit radix c = false := by
  intro c hc
  injection hc with hc
  subst hc
  simp [isRadixDigit, toDigit?]

theorem readGroupsAux_stop (limit n i : Nat) (s : List Char)
    (hv4 : readSep ':' i readIpv4 s = none) (hg : readSep ':' i readGroup s = none) :
    readGroupsAux limit n i s = ([], false, s) := by
  cases n with
  | zero => rfl
  | succ n' => simp only [readGroupsAux, hv4, hg, ite_self]

theorem readGroupsAux_colon_stop (limit n : Nat) (l : List Char) :
    readGroupsAux limit n 0 (':' :: l) = ([], false, ':' :: l) := by
  apply readGroupsAux_stop
  · unfold readSep
    rw [if_pos rfl]
    exact readIpv4_none_of_head _ (colon_head_not_digit 10 l)
  · unfold readSep
    rw [if_pos rfl]
    exact readNumber_none_of_head _ _ _ _ _ (colon_head_not_digit 16 l)

theorem joinColon_head (gs : List Nat) (hne : gs ≠ []) :
    ∃ c, (joinColon gs).head? = some c ∧ isRadixDigit 16 c = true := by
  cases gs with
  | nil => exact absurd rfl hne
  | cons g t =>
    rw [joinColon_eq]
    have hs := natHex_spec g
    cases hh : natHex g with
    | nil => exact absurd hh hs.1
    | cons c cs =>
      refine ⟨c, rfl, ?_⟩
      apply hs.2.1
      rw [hh]
      exact List.mem_cons_self c cs

theorem readGroupsAux_step_v4 (limit n i : Nat) (s : List Char) (a : Ipv4Addr)
    (s' : List Char) (hn : n ≠ 0) (hcond : i + 1 < limit)
    (hv4 : readSep ':' i readIpv4 s = some (a, s')) :
    readGroupsAux limit n i s = ([a.o1 * 256 + a.o2, a.o3 * 256 + a.o4], true, s') := by
  cases n with
  | zero => exact absurd rfl hn
  | succ n' => simp only [readGroupsAux, hv4, if_pos hcond]

theorem readGroupsAux_step_group (limit n i : Nat) (s : List Char) (gv : Nat)
    (s' : List Char) (hn : n ≠ 0)
    (hv4 : readSep ':' i readIpv4 s = none ∨ ¬ (i + 1 < limit))
    (hg : readSep ':' i readGroup s = some (gv, s')) :
    readGroupsAux limit n i s =
      (gv :: (readGroupsAux limit (n - 1) (i + 1) s').1,
        (readGroupsAux limit (n - 1) (i + 1) s').2.1,
        (readGroupsAux limit (n - 1) (i + 1) s').2.2) := by
  cases n with
  | zero => exact absurd rfl hn
  | succ n' =>
    rcases hv4 with hv4 | hcond
    · simp only [readGroupsAux, hv4, hg, ite_self, Nat.add_sub_cancel]
    · simp only [readGroupsAux, if_neg hcond, hg, Nat.add_sub_cancel]

theorem readIpv6_mapped (g h : Nat) (hg : g ≤ 65535) (hh : h ≤ 65535) :
    readIpv6 (':' :: ':' :: 'f' :: 'f' :: 'f' :: 'f' :: ':' ::
        ipv4Display ⟨g / 256, g % 256, h / 256, h % 256⟩) =
      some (⟨[0, 0, 0, 0, 0, 65535, g, h]⟩, []) := by
  have hshape : ('f' :: 'f' :: 'f' :: 'f' :: ':' ::
      ipv4Display ⟨g / 256, g % 256, h / 256, h % 256⟩ : List Char) =
      natHex 65535 ++ ':' :: ipv4Display ⟨g / 256, g % 256, h / 256, h % 256⟩ := rfl
  have hv40 : readSep ':' 0 readIpv4
      (natHex 65535 ++ ':' :: ipv4Display ⟨g / 256, g % 256, h / 256, h % 256⟩) = none := by
    unfold readSep
    rw [if_pos rfl]
    apply readIpv4_none_of_head
    intro c hc
    rw [head?_append_left _ _ (natHex_spec 65535).1] at hc
    have : c = 'f' := by
      rw [show natHex 65535 = ['f', 'f', 'f', 'f'] from rfl] at hc
      injection hc with hc
      exact hc.symm
    subst this
    decide
  have hg0 : readSep ':' 0 readGroup
      (natHex 65535 ++ ':' :: ipv4Display ⟨g / 256, g % 256, h / 256, h % 256⟩) =
      some (65535, ':' :: ipv4Display ⟨g / 256, g % 256, h / 256, h % 256⟩) := by
    unfold readSep
    rw [if_pos rfl]
    exact readGroup_natHex 65535 le_rfl _ (colon_head_not_digit 16 _)
  have hv41 : readSep ':' 1 readIpv4
      (':' :: ipv4Display ⟨g / 256, g % 256, h / 256, h % 256⟩) =
      some (⟨g / 256, g % 256, h / 256, h % 256⟩, []) := by
    rw [readSep_pos_cons ':' ':' 1 (by omega), if_pos rfl]
    rw [show ipv4Display ⟨g / 256, g % 256, h / 256, h % 256⟩ =
      ipv4Display ⟨g / 256, g % 256, h / 256, h % 256⟩ ++ [] from (List.append_nil _).symm]
    exact readIpv4_display ⟨g / 256, g % 256, h / 256, h % 256⟩
      (by show g / 256 ≤ 255; omega) (by show g % 256 ≤ 255; omega)
      (by show h / 256 ≤ 255; omega) (by show h % 256 ≤ 255; omega) []
      (fun c hc => by cases hc)
  have htail : readGroupsAux 7 7 0
      (natHex 65535 ++ ':' :: ipv4Display ⟨g / 256, g % 256, h / 256, h % 256⟩) =
      ([65535, g, h], true, []) := by
    rw [readGroupsAux_step_group 7 7 0 _ 65535 _ (by omega) (Or.inl hv40) hg0]
    rw [readGroupsAux_step_v4 7 6 1 _ _ _ (by omega) (by omega) hv41]
    have e1 : g / 256 * 256 + g % 256 = g := by omega
    have e2 : h / 256 * 256 + h % 256 = h := by omega
    rw [show (⟨g / 256, g % 256, h / 256, h % 256⟩ : Ipv4Addr).o1 = g / 256 from rfl]
    simp only [e1, e2]
  simp only [readIpv6, readGroups, readGroupsAux_colon_stop, hshape]
  norm_num
  rw [htail]
  simp

theorem readIpv6_compressed (tail : List Nat) (hlen : tail.length ≤ 6)
    (hb : ∀ g ∈ tail, g ≤ 65535) :
    readIpv6 (':' :: ':' :: joinColon tail) =
      some (⟨List.replicate (8 - tail.length) 0 ++ tail⟩, []) := by
  have htl : readGroupsAux 7 7 0 (joinColon tail) = (tail, false, []) := by
    by_cases htail : tail = []
    · subst htail
      exact readGroupsAux_nil 7 7 0
    · exact readGroupsAux_joinColon tail 7 7 htail (by omega) hb
  simp only [readIpv6, readGroups, readGroupsAux_colon_stop]
  norm_num
  rw [htl]
  simp

theorem readIpv6_display (segs : List Nat) (hlen : segs.length = 8)
    (hb : ∀ g ∈ segs, g ≤ 65535)
    (hcolon : (ipv6Display ⟨segs⟩).head? = some ':') :
    readIpv6 (ipv6Display ⟨segs⟩) = some (⟨segs⟩, []) := by
  simp only [ipv6Display] at hcolon ⊢
  split at hcolon
  · rename_i gs g h
    exact readIpv6_mapped g h (hb g (by simp)) (hb h (by simp))
  · rename_i gs hnm
    have hspec := zeroRun_spec segs
    have hne8 : segs ≠ [] := by
      intro hn
      rw [hn] at hlen
      cases hlen
    by_cases hz : 1 < (zeroRun segs).2
    · rw [if_pos hz] at hcolon ⊢
      by_cases hz1 : (zeroRun segs).1 = 0
      · rw [hz1] at hcolon ⊢
        rw [List.take_zero] at hcolon ⊢
        rw [show joinColon [] = [] from rfl] at hcolon ⊢
        rw [List.nil_append] at hcolon ⊢
        rw [Nat.zero_add] at hcolon ⊢
        have hz2le : (zeroRun segs).2 ≤ 8 := by
          have h1 := hspec.1
          omega
        have hdrop : (segs.drop (zeroRun segs).2).length = 8 - (zeroRun segs).2 := by
          rw [List.length_drop, hlen]
        have hcomp := readIpv6_compressed (segs.drop (zeroRun segs).2) (by omega)
          (fun x hx => hb x (List.mem_of_mem_drop hx))
        rw [hcomp, hdrop]
        have hfill : List.replicate ((zeroRun segs).2) 0 ++ segs.drop (zeroRun segs).2 =
            segs := by
          conv_rhs => rw [← List.take_append_drop ((zeroRun segs).2) segs]
          congr 1
          exact (take_eq_replicate_zero segs _ (by omega) (fun j hj => by
            have hsj := hspec.2 j hj
            rwa [hz1, Nat.zero_add] at hsj)).symm
        rw [show 8 - (8 - (zeroRun segs).2) = (zeroRun segs).2 from by omega, hfill]
      · exfalso
        have htne : segs.take (zeroRun segs).1 ≠ [] := by
          rw [Ne, List.take_eq_nil_iff]
          push_neg
          exact ⟨hz1, hne8⟩
        obtain ⟨c, hc, hhex⟩ := joinColon_head (segs.take (zeroRun segs).1) htne
        have hjne : joinColon (segs.take (zeroRun segs).1) ≠ [] := by
          intro hn
          rw [hn] at hc
          cases hc
        rw [head?_append_left _ _ hjne, hc] at hcolon
        injection hcolon with hcc
        subst hcc
        exact absurd hhex (by decide)
    · rw [if_neg hz] at hcolon
      exfalso
      obtain ⟨c, hc, hhex⟩ := joinColon_head segs hne8
      rw [hc] at hcolon
      injection hcolon with hcc
      subst hcc
      exact absurd hhex (by decide)

/-! ### Pipeline stage lemmas -/

theorem contains_eq_false_iff (s : List Char) (x : Char) : s.contains x = false ↔ x ∉ s := by
  simp [List.contains, List.elem_eq_mem]

theorem contains_eq_true_iff (s : List Char) (x : Char) : s.contains x = true ↔ x ∈ s := by
  simp [List.contains, List.elem_eq_mem]

theorem removeWhitespace_eq_self (s : List Char) (h : ∀ c ∈ s, isWsChar c = false) :
    removeWhitespace s = s := by
  unfold removeWhitespace
  apply List.filter_eq_self.mpr
  intro a ha
  simp [h a ha]

theorem removeWhitespace_append (a b : List Char) :
    removeWhitespace (a ++ b) = removeWhitespace a ++ removeWhitespace b := by
  unfold removeWhitespace
  exact List.filter_append a b

theorem removeWhitespace_cons_keep (c : Char) (s : List Char) (h : isWsChar c = false) :
    removeWhitespace (c :: s) = c :: removeWhitespace s := by
  unfold removeWhitespace
  rw [List.filter_cons_of_pos (by simp [h])]

theorem findSchemeSplit_none_of_no_slash (s : List Char) (h : '/' ∉ s) :
    findSchemeSplit s = none := by
  induction s with
  | nil => rfl
  | cons c rest ih =>
    unfold findSchemeSplit
    rw [if_neg, ih (fun hm => h (List.mem_cons_of_mem _ hm))]
    rintro ⟨hc, htake⟩
    have hmem : '/' ∈ rest.take 2 := by
      rw [htake]
      simp
    exact h (List.mem_cons_of_mem _ (List.mem_of_mem_take hmem))

theorem findSchemeSplit_cons_none (c : Char) (s : List Char)
    (h : findSchemeSplit (c :: s) = none) : findSchemeSplit s = none := by
  unfold findSchemeSplit at h
  split at h
  · cases h
  · exact h

theorem findSchemeSplit_boundary : ∀ (scheme E : List Char),
    findSchemeSplit scheme = none →
    findSchemeSplit (scheme ++ ':' :: '/' :: '/' :: E) = some E := by
  intro scheme
  induction scheme with
  | nil =>
    intro E _
    show findSchemeSplit (':' :: '/' :: '/' :: E) = some E
    unfold findSchemeSplit
    rw [if_pos ⟨rfl, rfl⟩]
    rfl
  | cons c sc ih =>
    intro E hs
    have htail : findSchemeSplit sc = none := findSchemeSplit_cons_none c sc hs
    show findSchemeSplit (c :: (sc ++ ':' :: '/' :: '/' :: E)) = some E
    unfold findSchemeSplit
    rw [if_neg, ih E htail]
    rintro ⟨hc, htake⟩
    subst hc
    cases sc with
    | nil => simp at htake
    | cons d sd =>
      cases sd with
      | nil => simp at htake
      | cons e se =>
        simp at htake
        obtain ⟨hd, he⟩ := htake
        subst hd
        subst he
        unfold findSchemeSplit at hs
        rw [if_pos ⟨rfl, rfl⟩] at hs
        cases hs

theorem splitFirst_append (sep : Char) : ∀ (pre post : List Char), sep ∉ pre →
    splitFirst sep (pre ++ sep :: post) = some (pre, post) := by
  intro pre
  induction pre with
  | nil =>
    intro post _
    show splitFirst sep (sep :: post) = some ([], post)
    unfold splitFirst
    rw [if_pos rfl]
  | cons c cs ih =>
    intro post h
    show splitFirst sep (c :: (cs ++ sep :: post)) = some (c :: cs, post)
    unfold splitFirst
    rw [if_neg (fun hc => h (by rw [hc]; exact List.mem_cons_self sep cs)),
      ih post (fun hm => h (List.mem_cons_of_mem _ hm))]

theorem splitFirst_not_mem_of_none (sep : Char) : ∀ (s : List Char),
    splitFirst sep s = none → sep ∉ s := by
  intro s
  induction s with
  | nil =>
    intro _ hm
    cases hm
  | cons c cs ih =>
    intro h hm
    unfold splitFirst at h
    split at h
    · cases h
    · rename_i hc
      split at h
      · cases h
      · rename_i hrec
        rcases List.mem_cons.mp hm with rfl | hm'
        · exact hc rfl
        · exact ih hrec hm'

theorem splitFirst_none_of_not_mem (sep : Char) : ∀ (s : List Char), sep ∉ s →
    splitFirst sep s = none := by
  intro s
  induction s with
  | nil => intro _; rfl
  | cons c cs ih =>
    intro h
    unfold splitFirst
    rw [if_neg (fun hc => h (by rw [hc]; exact List.mem_cons_self sep cs)),
      ih (fun hm => h (List.mem_cons_of_mem _ hm))]

theorem splitFirst_some_inv (sep : Char) : ∀ (s p q : List Char),
    splitFirst sep s = some (p, q) → s = p ++ sep :: q ∧ sep ∉ p := by
  intro s
  induction s with
  | nil =>
    intro p q h
    cases h
  | cons c cs ih =>
    intro p q h
    unfold splitFirst at h
    split at h
    · rename_i hc
      injection h with h
      injection h with h1 h2
      subst h2
      rw [← h1, hc]
      exact ⟨rfl, by simp⟩
    · rename_i hc
      split at h
      · rename_i p' q' hrec
        injection h with h
        injection h with h1 h2
        subst h2
        obtain ⟨hs, hnm⟩ := ih p' _ hrec
        rw [← h1, hs]
        refine ⟨rfl, ?_⟩
        intro hm
        rcases List.mem_cons.mp hm with rfl | hm'
        · exact hc rfl
        · exact hnm hm'
      · cases h

theorem splitFirst_isSome_of_mem (sep : Char) (s : List Char) (h : sep ∈ s) :
    ∃ p q, splitFirst sep s = some (p, q) := by
  cases hs : splitFirst sep s with
  | none => exact absurd h (splitFirst_not_mem_of_none sep s hs)
  | some r =>
    obtain ⟨p, q⟩ := r
    exact ⟨p, q, rfl⟩

theorem readSocketV6_not_bracket (s : List Char) (h : ∀ c, s.head? = some c → c ≠ '[') :
    readSocketV6 s = none := by
  cases s with
  | nil => rfl
  | cons c cs =>
    unfold readSocketV6
    split
    · rename_i s1 heq
      injection heq with h1 h2
      exact absurd h1 (h c rfl)
    · rfl

theorem socketAddrFromStr_none (s : List Char)
    (h4 : ∀ r, readSocketV4 s = some r → r.2 ≠ [])
    (h6 : readSocketV6 s = none) :
    socketAddrFromStr s = none := by
  unfold socketAddrFromStr
  cases hv : readSocketV4 s with
  | none => simp only [hv, h6]
  | some r =>
    obtain ⟨⟨a, p⟩, rest⟩ := r
    have hne := h4 _ hv
    cases rest with
    | nil => exact absurd rfl hne
    | cons x xs => simp only [hv]

theorem parseAfterStrip_bare (w : List Char)
    (hsock : socketAddrFromStr w = none)
    (hbr : ¬ (w.head? = some '[' ∧ w.getLast? = some ']'))
    (hpc : w.contains '%' = false) :
    parseAfterStrip w = bareStage w := by
  simp only [parseAfterStrip, hsock, if_neg hbr, hpc, Bool.false_eq_true, if_false]

theorem mem_ipv4Display (a : Ipv4Addr) (c : Char) (hc : c ∈ ipv4Display a) :
    isRadixDigit 10 c = true ∨ c = '.' := by
  unfold ipv4Display at hc
  rcases List.mem_append.mp hc with hc | hc4
  · rcases List.mem_append.mp hc with hc | hc3
    · rcases List.mem_append.mp hc with hc1 | hc2
      · exact Or.inl ((natDigits_spec a.o1).2.1 c hc1)
      · rcases List.mem_cons.mp hc2 with rfl | hc2
        · exact Or.inr rfl
        · exact Or.inl ((natDigits_spec a.o2).2.1 c hc2)
    · rcases List.mem_cons.mp hc3 with rfl | hc3
      · exact Or.inr rfl
      · exact Or.inl ((natDigits_spec a.o3).2.1 c hc3)
  · rcases List.mem_cons.mp hc4 with rfl | hc4
    · exact Or.inr rfl
    · exact Or.inl ((natDigits_spec a.o4).2.1 c hc4)

theorem mem_joinColon (gs : List Nat) (c : Char) (hc : c ∈ joinColon gs) :
    isRadixDigit 16 c = true ∨ c = ':' := by
  cases gs with
  | nil => cases hc
  | cons g t =>
    rw [joinColon_eq] at hc
    exact hexJoin_class g t c hc

theorem mem_ipv6Display (a : Ipv6Addr) (c : Char) (hc : c ∈ ipv6Display a) :
    isV6Char c = true := by
  simp only [ipv6Display] at hc
  split at hc
  · rename_i g h
    simp only [List.mem_cons] at hc
    rcases hc with rfl | rfl | rfl | rfl | rfl | rfl | rfl | hc
    · decide
    · decide
    · decide
    · decide
    · decide
    · decide
    · decide
    · rcases mem_ipv4Display _ c hc with hd | rfl
      · exact isV6Char_of_digit c (isRadixDigit_ten_to_sixteen c hd)
      · decide
  · rename_i gs hnm
    split at hc
    · rcases List.mem_append.mp hc with hc | hc
      · rcases mem_joinColon _ c hc with hd | rfl
        · exact isV6Char_of_digit c hd
        · decide
      · rcases List.mem_cons.mp hc with rfl | hc
        · decide
        · rcases List.mem_cons.mp hc with rfl | hc
          · decide
          · rcases mem_joinColon _ c hc with hd | rfl
            · exact isV6Char_of_digit c hd
            · decide
    · rcases mem_joinColon _ c hc with hd | rfl
      · exact isV6Char_of_digit c hd
      · decide

theorem ipv4Display_shape (a : Ipv4Addr) :
    ipv4Display a = natDigits a.o1 ++
      ('.' :: natDigits a.o2 ++ '.' :: natDigits a.o3 ++ '.' :: natDigits a.o4) := by
  unfold ipv4Display
  simp [List.append_assoc]

theorem ipv4Display_head (a : Ipv4Addr) :
    ∃ c0, (ipv4Display a).head? = some c0 ∧ isRadixDigit 10 c0 = true := by
  have hs := natDigits_spec a.o1
  cases hh : natDigits a.o1 with
  | nil => exact absurd hh hs.1
  | cons c cs =>
    refine ⟨c, ?_, hs.2.1 c (by rw [hh]; exact List.mem_cons_self c cs)⟩
    rw [ipv4Display_shape, head?_append_left _ _ hs.1, hh]
    rfl

theorem parse_ipv4_display (a : Ipv4Addr) (h1 : a.o1 ≤ 255) (h2 : a.o2 ≤ 255)
    (h3 : a.o3 ≤ 255) (h4 : a.o4 ≤ 255) :
    parseChars (ipv4Display a) = .ok (.V4 a, none) := by
  have hmem := mem_ipv4Display a
  have hnws : removeWhitespace (ipv4Display a) = ipv4Display a :=
    removeWhitespace_eq_self _ (fun c hc => by
      rcases hmem c hc with h | h
      · exact isWsChar_false_of c (by have := (isRadixDigit_ten_iff c).mp h; omega)
      · subst h; decide)
  have hscheme : stripScheme (ipv4Display a) = ipv4Display a := by
    unfold stripScheme
    rw [findSchemeSplit_none_of_no_slash _ (fun hm => by
      rcases hmem '/' hm with h | h
      · exact absurd h (by decide)
      · exact absurd h (by decide))]
    rfl
  have hsplit : splitFirst ':' (ipv4Display a) = none :=
    splitFirst_none_of_not_mem ':' _ (fun hm => by
      rcases hmem ':' hm with h | h
      · exact absurd h (by decide)
      · exact absurd h (by decide))
  have hsock : stripSocket (ipv4Display a) = ipv4Display a := by
    unfold stripSocket
    rw [hsplit]
  have hv4 : readIpv4 (ipv4Display a) = some (a, []) := by
    rw [show ipv4Display a = ipv4Display a ++ [] from (List.append_nil _).symm]
    exact readIpv4_display a h1 h2 h3 h4 [] (fun c hc => by cases hc)
  obtain ⟨c0, hc0, hdig0⟩ := ipv4Display_head a
  have hs4 : readSocketV4 (ipv4Display a) = none := by
    unfold readSocketV4
    simp only [hv4]
    rfl
  have hsockaddr : socketAddrFromStr (ipv4Display a) = none := by
    apply socketAddrFromStr_none
    · intro r hr
      rw [hs4] at hr
      cases hr
    · apply readSocketV6_not_bracket
      intro c hc hceq
      rw [hc0] at hc
      injection hc with hc
      subst hc
      subst hceq
      exact absurd hdig0 (by decide)
  have hbr : ¬ ((ipv4Display a).head? = some '[' ∧ (ipv4Display a).getLast? = some ']') := by
    rintro ⟨hh, _⟩
    rw [hc0] at hh
    injection hh with hh
    subst hh
    exact absurd hdig0 (by decide)
  have hpc : (ipv4Display a).contains '%' = false := by
    rw [contains_eq_false_iff]
    intro hm
    rcases hmem '%' hm with h | h
    · exact absurd h (by decide)
    · exact absurd h (by decide)
  unfold parseChars
  rw [hnws, hscheme, hsock, parseAfterStrip_bare _ hsockaddr hbr hpc]
  unfold bareStage ipAddrFromStr readIpAddr
  simp only [hv4]
  rfl

theorem parse_ipv6_display (segs : List Nat) (hlen : segs.length = 8)
    (hb : ∀ g ∈ segs, g ≤ 65535)
    (hcolon : (ipv6Display ⟨segs⟩).head? = some ':') :
    parseChars (ipv6Display ⟨segs⟩) = .ok (.V6 ⟨segs⟩, none) := by
  have hmem := mem_ipv6Display ⟨segs⟩
  have hnws : removeWhitespace (ipv6Display ⟨segs⟩) = ipv6Display ⟨segs⟩ :=
    removeWhitespace_eq_self _ (fun c hc => isV6Char_not_ws c (hmem c hc))
  have hscheme : stripScheme (ipv6Display ⟨segs⟩) = ipv6Display ⟨segs⟩ := by
    unfold stripScheme
    rw [findSchemeSplit_none_of_no_slash _
      (fun hm => (isV6Char_ne_chars '/' (hmem '/' hm)).2.2.1 rfl)]
    rfl
  have hsock : stripSocket (ipv6Display ⟨segs⟩) = ipv6Display ⟨segs⟩ := by
    cases hd : ipv6Display ⟨segs⟩ with
    | nil => rfl
    | cons c rest =>
      rw [hd] at hcolon
      injection hcolon with hc
      subst hc
      simp only [stripSocket, show splitFirst ':' (':' :: rest) = some ([], rest) from by
        unfold splitFirst
        rw [if_pos rfl]]
      rw [if_neg]
      rintro ⟨_, hne, _⟩
      exact hne rfl
  have hv6 : readIpv6 (ipv6Display ⟨segs⟩) = some (⟨segs⟩, []) :=
    readIpv6_display segs hlen hb hcolon
  have hip4 : readIpv4 (ipv6Display ⟨segs⟩) = none :=
    readIpv4_none_of_head _ (fun c hc => by
      rw [hcolon] at hc
      injection hc with hc
      subst hc
      decide)
  have hs4 : readSocketV4 (ipv6Display ⟨segs⟩) = none := by
    simp only [readSocketV4, hip4]
  have hsockaddr : socketAddrFromStr (ipv6Display ⟨segs⟩) = none := by
    apply socketAddrFromStr_none
    · intro r hr
      rw [hs4] at hr
      cases hr
    · apply readSocketV6_not_bracket
      intro c hc hceq
      rw [hcolon] at hc
      injection hc with hc
      subst hceq
      exact absurd hc (by decide)
  have hbr : ¬ ((ipv6Display ⟨segs⟩).head? = some '[' ∧
      (ipv6Display ⟨segs⟩).getLast? = some ']') := by
    rintro ⟨hh, _⟩
    rw [hcolon] at hh
    injection hh with hh
    exact absurd hh (by decide)
  have hpc : (ipv6Display ⟨segs⟩).contains '%' = false := by
    rw [contains_eq_false_iff]
    intro hm
    exact (isV6Char_ne_chars '%' (hmem '%' hm)).2.1 rfl
  unfold parseChars
  rw [hnws, hscheme, hsock, parseAfterStrip_bare _ hsockaddr hbr hpc]
  unfold bareStage ipAddrFromStr readIpAddr
  simp only [hip4, hv6]
  rfl

/-! ### Claim C1 -/

/-- C1 counterexample: `parse` can produce `V6 2001:db8::1` (from its bracketed
form), but re-parsing the rendered text "2001:db8::1" strips the first hex
group as a socket-notation tag and yields a different address, refuting the
round-trip as stated. -/
theorem C1_roundtrip_counterexample :
    parse "[2001:db8::1]" = .ok (.V6 ⟨[8193, 3512, 0, 0, 0, 0, 0, 1]⟩, none) ∧
    parseChars (ipVersionDisplay (.V6 ⟨[8193, 3512, 0, 0, 0, 0, 0, 1]⟩)) ≠
      .ok (.V6 ⟨[8193, 3512, 0, 0, 0, 0, 0, 1]⟩, none) := by
  constructor
  · rfl
  · decide

/-- C1 (amended): rendering then re-parsing returns the same address with port
`None` for every producible `V4` value, and for every producible `V6` value
whose canonical text begins with `:` (so the socket-notation stage cannot
strip its first group).  For other `V6` values the first hex group is taken
for a socket-notation tag and the round trip fails. -/
theorem C1_roundtrip_amended (v : IpVersion) (hval : validIpVersion v)
    (hv6 : ∀ a, v = .V6 a → (ipv6Display a).head? = some ':') :
    parseChars (ipVersionDisplay v) = .ok (v, none) := by
  cases v with
  | V4 a =>
    obtain ⟨h1, h2, h3, h4⟩ := hval
    exact parse_ipv4_display a h1 h2 h3 h4
  | V6 a =>
    obtain ⟨hlen, hb⟩ := hval
    obtain ⟨segs⟩ := a
    exact parse_ipv6_display segs hlen hb (hv6 ⟨segs⟩ rfl)

/-- C1 witness: the amended round trip at `::1`. -/
theorem C1_roundtrip_amended_witness :
    validIpVersion (.V6 ⟨[0, 0, 0, 0, 0, 0, 0, 1]⟩) ∧
    parseChars (ipVersionDisplay (.V6 ⟨[0, 0, 0, 0, 0, 0, 0, 1]⟩)) =
      .ok (.V6 ⟨[0, 0, 0, 0, 0, 0, 0, 1]⟩, none) :=
  ⟨⟨rfl, by decide⟩,
    C1_roundtrip_amended (.V6 ⟨[0, 0, 0, 0, 0, 0, 0, 1]⟩) ⟨rfl, by decide⟩
      (fun a ha => by cases ha; rfl)⟩

/-! ### Claim C2 -/

/-- C2: "2001:db8::1" is a valid bare IPv6 literal with an alphanumeric first
group, a following colon, and no `%`; `parse` succeeds on it but the
socket-notation stage strips the first group, so the result is the address
denoted by "db8::1", different from the address the literal denotes. -/
theorem C2_socket_stage_misparse :
    ipv6FromStr ("2001:db8::1".data) = some ⟨[8193, 3512, 0, 0, 0, 0, 0, 1]⟩ ∧
    stripSocket ("2001:db8::1".data) = "db8::1".data ∧
    parse "2001:db8::1" = .ok (.V6 ⟨[3512, 0, 0, 0, 0, 0, 0, 1]⟩, none) ∧
    (⟨[3512, 0, 0, 0, 0, 0, 0, 1]⟩ : Ipv6Addr) ≠ ⟨[8193, 3512, 0, 0, 0, 0, 0, 1]⟩ := by
  refine ⟨?_, ?_, ?_, ?_⟩
  · rfl
  · rfl
  · rfl
  · decide

/-! ### Claim C10 -/

/-- C10: the conversion from the native `IpAddr` type into `IpVersion` is
family-preserving and injective, and the inverse conversion back to `IpAddr`
round-trips in both directions (the inverse itself is modelled from the spec,
as only the forward impl appears in the source snapshot). -/
theorem C10_conversion_lossless :
    (∀ x : Ipv4Addr, ipVersionFromIpAddr (.V4 x) = .V4 x) ∧
    (∀ x : Ipv6Addr, ipVersionFromIpAddr (.V6 x) = .V6 x) ∧
    (∀ a b : IpAddr, ipVersionFromIpAddr a = ipVersionFromIpAddr b → a = b) ∧
    (∀ v : IpVersion, ipVersionFromIpAddr (ipVersionToIpAddr v) = v) ∧
    (∀ a : IpAddr, ipVersionToIpAddr (ipVersionFromIpAddr a) = a) := by
  refine ⟨fun x => rfl, fun x => rfl, ?_, ?_, ?_⟩
  · intro a b h
    cases a with
    | V4 x =>
      cases b with
      | V4 y =>
        injection h with h
        rw [h]
      | V6 y => injection h
    | V6 x =>
      cases b with
      | V4 y => injection h
      | V6 y =>
        injection h with h
        rw [h]
  · intro v
    cases v <;> rfl
  · intro a
    cases a <;> rfl

/-! ### Claims C6 and C7 -/

/-- C6: whenever the working string (after whitespace, scheme and
socket-notation stripping, and a failed socket-address attempt) starts with
`[` and ends with `]`, `parse` returns the bracket-stage result: `Ok (V6 a,
None)` when the bracket interior is a valid IPv6 literal, and otherwise the
error "Invalid IPv6 address in brackets: <content>" immediately, without
attempting the scoped-literal or bare-literal stages. -/
theorem C6_bracket_stage (input w : List Char)
    (hw : w = stripSocket (stripScheme (removeWhitespace input)))
    (hsock : socketAddrFromStr w = none)
    (hh : w.head? = some '[') (hl : w.getLast? = some ']') :
    parseChars input = (match ipv6FromStr ((w.drop 1).dropLast) with
      | some a => .ok (.V6 a, none)
      | none => .error ("Invalid IPv6 address in brackets: " ++
          String.mk ((w.drop 1).dropLast))) := by
  simp only [parseChars, ← hw, parseAfterStrip, hsock, if_pos (And.intro hh hl)]

/-- C6 witness: the bracket stage at "[::1]". -/
theorem C6_bracket_stage_witness :
    parseChars ("[::1]".data) = .ok (.V6 ⟨[0, 0, 0, 0, 0, 0, 0, 1]⟩, none) := by
  have h := C6_bracket_stage ("[::1]".data) ("[::1]".data) rfl rfl rfl rfl
  exact h

/-- C7: whenever the working string contains `%`, was not resolved by the
socket-address stage, and is not bracketed, `parse` splits at the first `%`
and parses the part before it as a bare IPv6 literal; on success the zone text
is discarded and `(V6 a, None)` is returned, and on failure `parse` falls
through to the bare-literal stage instead of failing immediately. -/
theorem C7_scoped_stage (input w : List Char)
    (hw : w = stripSocket (stripScheme (removeWhitespace input)))
    (hsock : socketAddrFromStr w = none)
    (hbr : ¬ (w.head? = some '[' ∧ w.getLast? = some ']'))
    (hpc : w.contains '%' = true) :
    parseChars input = (match ipv6FromStr (w.takeWhile (fun c => c ≠ '%')) with
      | some a => .ok (.V6 a, none)
      | none => bareStage w) := by
  simp only [parseChars, ← hw, parseAfterStrip, hsock, if_neg hbr, hpc, if_true]

/-- C7 witness: the scoped stage at "fe80::1%eth2" - the zone text "eth2" is
discarded and the part before the `%` parses as a bare IPv6 literal. -/
theorem C7_scoped_stage_witness :
    parseChars ("fe80::1%eth2".data) =
      .ok (.V6 ⟨[65152, 0, 0, 0, 0, 0, 0, 1]⟩, none) := by
  have h := C7_scoped_stage ("fe80::1%eth2".data) ("fe80::1%eth2".data) rfl rfl
    (by decide) rfl
  exact h

/-! ### Claim C9 -/

/-- C9: prefixing a scheme and `://` to a bare endpoint (one whose
whitespace-free text contains no `://` of its own) does not change the parse
result; in particular it succeeds whenever the bare endpoint parses. -/
theorem C9_scheme_idempotent (scheme E : List Char) (r : IpVersion × Option Nat)
    (hws : ∀ c ∈ scheme, isWsChar c = false)
    (hnos : findSchemeSplit scheme = none)
    (hbare : findSchemeSplit (removeWhitespace E) = none)
    (hok : parseChars E = .ok r) :
    parseChars (scheme ++ ':' :: '/' :: '/' :: E) = parseChars E ∧
      parseChars (scheme ++ ':' :: '/' :: '/' :: E) = .ok r := by
  have hmain : parseChars (scheme ++ ':' :: '/' :: '/' :: E) = parseChars E := by
    unfold parseChars
    have h1 : removeWhitespace (scheme ++ ':' :: '/' :: '/' :: E) =
        scheme ++ ':' :: '/' :: '/' :: removeWhitespace E := by
      rw [removeWhitespace_append, removeWhitespace_eq_self scheme hws,
        removeWhitespace_cons_keep _ _ (by decide),
        removeWhitespace_cons_keep _ _ (by decide),
        removeWhitespace_cons_keep _ _ (by decide)]
    rw [h1]
    have h2 : stripScheme (scheme ++ ':' :: '/' :: '/' :: removeWhitespace E) =
        removeWhitespace E := by
      unfold stripScheme
      rw [findSchemeSplit_boundary scheme (removeWhitespace E) hnos]
      rfl
    have h3 : stripScheme (removeWhitespace E) = removeWhitespace E := by
      unfold stripScheme
      rw [hbare]
      rfl
    rw [h2, h3]
  exact ⟨hmain, hmain.trans hok⟩

/-- C9 witness: "http://192.168.1.1:8080" parses like "192.168.1.1:8080". -/
theorem C9_scheme_idempotent_witness :
    parseChars ("http".data ++ ':' :: '/' :: '/' :: "192.168.1.1:8080".data) =
      parseChars ("192.168.1.1:8080".data) ∧
    parseChars ("http".data ++ ':' :: '/' :: '/' :: "192.168.1.1:8080".data) =
      .ok (.V4 ⟨192, 168, 1, 1⟩, some 8080) :=
  C9_scheme_idempotent ("http".data) ("192.168.1.1:8080".data)
    (.V4 ⟨192, 168, 1, 1⟩, some 8080) (by decide) rfl rfl rfl

/-! ### Claim C3 -/

theorem findSchemeSplit_tag_none : ∀ (tag E : List Char),
    (∀ c ∈ tag, isTagChar c = true) →
    findSchemeSplit E = none → E.take 2 ≠ ['/', '/'] →
    findSchemeSplit (tag ++ ':' :: E) = none := by
  intro tag
  induction tag with
  | nil =>
    intro E htag hE htake
    show findSchemeSplit (':' :: E) = none
    unfold findSchemeSplit
    rw [if_neg, hE]
    rintro ⟨_, h2⟩
    exact htake h2
  | cons c ct ih =>
    intro E htag hE htake
    show findSchemeSplit (c :: (ct ++ ':' :: E)) = none
    unfold findSchemeSplit
    rw [if_neg, ih E (fun x hx => htag x (List.mem_cons_of_mem _ hx)) hE htake]
    rintro ⟨hc, _⟩
    exact (isTagChar_ne_chars c (htag c (List.mem_cons_self c ct))).1 hc

/-- C3 counterexample: "fe80::1%eth0" is a valid bare endpoint whose text
contains `:`, and "x" is an alphanumeric tag, yet
`parse("x:fe80::1%eth0")` differs from `parse("fe80::1%eth0")` (the `%` in the
string disables the socket-notation strip, so the tagged form fails). -/
theorem C3_socket_idempotent_counterexample :
    (':' ∈ "fe80::1%eth0".data) ∧
    (∀ c ∈ "x".data, isTagChar c = true) ∧
    (∃ r, parse "fe80::1%eth0" = .ok r) ∧
    parseChars ("x".data ++ ':' :: "fe80::1%eth0".data) ≠ parse "fe80::1%eth0" := by
  refine ⟨by decide, by decide,
    ⟨(.V6 ⟨[65152, 0, 0, 0, 0, 0, 0, 1]⟩, none), rfl⟩, by decide⟩

/-- C3 (amended): `parse(tag ++ ":" ++ E) = parse(E)` for a nonempty
alphanumeric/underscore tag and an endpoint `E` whose whitespace-free text is
nonempty, looks address-shaped (contains `.` or `:` or starts with `[`),
contains no `%` (scoped literals break the claim), contains no `://` and does
not begin with `//`, and is itself left unchanged by the socket-notation
stage (endpoints whose first group the stage would strip break the claim). -/
theorem C3_socket_idempotent_amended (tag E : List Char) (r : IpVersion × Option Nat)
    (htag : tag ≠ []) (htagc : ∀ c ∈ tag, isTagChar c = true)
    (hne : removeWhitespace E ≠ [])
    (hshape : '.' ∈ removeWhitespace E ∨ ':' ∈ removeWhitespace E ∨
      (removeWhitespace E).head? = some '[')
    (hnp : '%' ∉ removeWhitespace E)
    (hnos : findSchemeSplit (removeWhitespace E) = none)
    (hslash : (removeWhitespace E).take 2 ≠ ['/', '/'])
    (hfix : stripSocket (removeWhitespace E) = removeWhitespace E)
    (hok : parseChars E = .ok r) :
    parseChars (tag ++ ':' :: E) = parseChars E ∧
      parseChars (tag ++ ':' :: E) = .ok r := by
  have hmain : parseChars (tag ++ ':' :: E) = parseChars E := by
    unfold parseChars
    have h1 : removeWhitespace (tag ++ ':' :: E) =
        tag ++ ':' :: removeWhitespace E := by
      rw [removeWhitespace_append,
        removeWhitespace_eq_self tag (fun c hc => isTagChar_not_ws c (htagc c hc)),
        removeWhitespace_cons_keep ':' E (by decide)]
    rw [h1]
    have h2 : stripScheme (tag ++ ':' :: removeWhitespace E) =
        tag ++ ':' :: removeWhitespace E := by
      unfold stripScheme
      rw [findSchemeSplit_tag_none tag _ htagc hnos hslash]
      rfl
    have h3 : stripScheme (removeWhitespace E) = removeWhitespace E := by
      unfold stripScheme
      rw [hnos]
      rfl
    have h4 : stripSocket (tag ++ ':' :: removeWhitespace E) = removeWhitespace E := by
      simp only [stripSocket, splitFirst_append ':' tag _
        (fun hm => (isTagChar_ne_chars ':' (htagc ':' hm)).1 rfl)]
      rw [if_pos]
      refine ⟨?_, htag, hne, ?_, ?_⟩
      · exact List.all_eq_true.mpr htagc
      · intro hcont
        rcases List.mem_append.mp ((contains_eq_true_iff _ '%').mp hcont) with hm | hm
        · exact (isTagChar_ne_chars '%' (htagc '%' hm)).2.2 rfl
        · rcases List.mem_cons.mp hm with hm | hm
          · exact absurd hm (by decide)
          · exact hnp hm
      · rcases hshape with hm | hm | hm
        · exact Or.inl ((contains_eq_true_iff _ '.').mpr hm)
        · exact Or.inr (Or.inl ((contains_eq_true_iff _ ':').mpr hm))
        · exact Or.inr (Or.inr hm)
    rw [h2, h3, h4, hfix]
  exact ⟨hmain, hmain.trans hok⟩

/-- C3 witness: the amended equation at tag "inet" and E "192.168.1.1:8080". -/
theorem C3_socket_idempotent_amended_witness :
    parseChars ("inet".data ++ ':' :: "192.168.1.1:8080".data) =
      parseChars ("192.168.1.1:8080".data) ∧
    parseChars ("inet".data ++ ':' :: "192.168.1.1:8080".data) =
      .ok (.V4 ⟨192, 168, 1, 1⟩, some 8080) :=
  C3_socket_idempotent_amended ("inet".data) ("192.168.1.1:8080".data)
    (.V4 ⟨192, 168, 1, 1⟩, some 8080) (by decide) (by decide) (by decide)
    (by decide) (by decide) rfl (by decide) rfl rfl

/-! ### Extension lemmas: appending a non-token suffix does not disturb a
parse.  The suffix `t` must not begin with a character that could begin or
extend an address token (hex digit, `:` or `.`). -/

theorem readNumber_ext_some (radix maxVal : Nat) (maxDigits : Option Nat) (allowZP : Bool)
    (u t : List Char) (v : Nat) (rest : List Char)
    (ht : ∀ c, t.head? = some c → isRadixDigit radix c = false)
    (h : readNumber radix maxDigits allowZP maxVal u = some (v, rest)) :
    readNumber radix maxDigits allowZP maxVal (u ++ t) = some (v, rest ++ t) := by
  obtain ⟨ds, hu, hne, hdig, hrest, hv, hvb, hlen, hzp⟩ :=
    readNumber_some_inv _ _ _ _ u v rest h
  subst hu
  rw [List.append_assoc,
    readNumber_eq_of radix maxVal maxDigits allowZP ds (rest ++ t) hdig ?_ hne hlen ?_
      (by omega), hv]
  · intro c hc
    cases rest with
    | nil => exact ht c hc
    | cons x xs =>
      injection hc with hc
      subst hc
      exact hrest x rfl
  · intro hz h0
    exact hzp hz h0

theorem readNumber_ext_none (radix maxVal : Nat) (maxDigits : Option Nat) (allowZP : Bool)
    (u t : List Char)
    (ht : ∀ c, t.head? = some c → isRadixDigit radix c = false)
    (h : readNumber radix maxDigits allowZP maxVal u = none) :
    readNumber radix maxDigits allowZP maxVal (u ++ t) = none := by
  have hspan : (u ++ t).takeWhile (isRadixDigit radix) = u.takeWhile (isRadixDigit radix) := by
    cases hdw : u.dropWhile (isRadixDigit radix) with
    | nil =>
      have hu : u.takeWhile (isRadixDigit radix) = u := by
        have htd := List.takeWhile_append_dropWhile (isRadixDigit radix) u
        rw [hdw, List.append_nil] at htd
        exact htd
      rw [(span_append_eq _ u t (fun c hc => mem_takeWhile (hu.symm ▸ hc)) ht).1, hu]
    | cons d dr =>
      have hu : u = u.takeWhile (isRadixDigit radix) ++ d :: dr := by
        rw [← hdw, List.takeWhile_append_dropWhile]
      have hd : isRadixDigit radix d = false :=
        head?_dropWhile_false _ u d (by rw [hdw]; rfl)
      calc (u ++ t).takeWhile (isRadixDigit radix)
          = (u.takeWhile (isRadixDigit radix) ++ (d :: (dr ++ t))).takeWhile
              (isRadixDigit radix) := by
            conv_lhs => rw [hu]
            simp [List.append_assoc]
        _ = u.takeWhile (isRadixDigit radix) :=
            (span_append_eq _ _ (d :: (dr ++ t))
              (fun c hc => mem_takeWhile hc)
              (fun c hc => by injection hc with hc; subst hc; exact hd)).1
  unfold readNumber at h ⊢
  rw [hspan]
  split at h
  · rename_i h1
    rw [if_pos h1]
  · rename_i h1
    split at h
    · rename_i h2
      rw [if_neg h1, if_pos h2]
    · rename_i h2
      split at h
      · rename_i h3
        rw [if_neg h1, if_neg h2, if_pos h3]
      · rename_i h3
        split at h
        · rename_i h4
          rw [if_neg h1, if_neg h2, if_neg h3, if_pos h4]
        · cases h

theorem readOctet_ext_some (u t : List Char) (v : Nat) (rest : List Char)
    (ht : ∀ c, t.head? = some c → isRadixDigit 10 c = false)
    (h : readOctet u = some (v, rest)) : readOctet (u ++ t) = some (v, rest ++ t) :=
  readNumber_ext_some 10 255 (some 3) false u t v rest ht h

theorem readOctet_ext_none (u t : List Char)
    (ht : ∀ c, t.head? = some c → isRadixDigit 10 c = false)
    (h : readOctet u = none) : readOctet (u ++ t) = none :=
  readNumber_ext_none 10 255 (some 3) false u t ht h

theorem readGroup_ext_some (u t : List Char) (v : Nat) (rest : List Char)
    (ht : ∀ c, t.head? = some c → isRadixDigit 16 c = false)
    (h : readGroup u = some (v, rest)) : readGroup (u ++ t) = some (v, rest ++ t) :=
  readNumber_ext_some 16 65535 (some 4) true u t v rest ht h

theorem readGroup_ext_none (u t : List Char)
    (ht : ∀ c, t.head? = some c → isRadixDigit 16 c = false)
    (h : readGroup u = none) : readGroup (u ++ t) = none :=
  readNumber_ext_none 16 65535 (some 4) true u t ht h

theorem readSep_ext_some {α : Type} (sep : Char) (i : Nat)
    (inner : List Char → Option (α × List Char)) (u t : List Char) (v : α)
    (rest : List Char)
    (hext : ∀ u', inner u' = some (v, rest) → inner (u' ++ t) = some (v, rest ++ t))
    (h : readSep sep i inner u = some (v, rest)) :
    readSep sep i inner (u ++ t) = some (v, rest ++ t) := by
  by_cases hi : i = 0
  · unfold readSep at h ⊢
    rw [if_pos hi] at h ⊢
    exact hext u h
  · obtain ⟨u', rfl, hin⟩ := readSep_pos_some_inv sep i hi inner u v rest h
    rw [show (sep :: u') ++ t = sep :: (u' ++ t) from rfl,
      readSep_pos_cons sep sep i hi, if_pos rfl]
    exact hext u' hin

theorem readSep_ext_none {α : Type} (sep : Char) (i : Nat)
    (inner : List Char → Option (α × List Char)) (u t : List Char)
    (hexn : ∀ u', inner u' = none → inner (u' ++ t) = none)
    (hts : ∀ c, t.head? = some c → c ≠ sep)
    (h : readSep sep i inner u = none) :
    readSep sep i inner (u ++ t) = none := by
  by_cases hi : i = 0
  · unfold readSep at h ⊢
    rw [if_pos hi] at h ⊢
    exact hexn u h
  · cases u with
    | nil =>
      cases t with
      | nil => exact readSep_pos_nil sep i hi inner
      | cons c cs =>
        show readSep sep i inner (c :: cs) = none
        rw [readSep_pos_cons sep c i hi, if_neg (hts c rfl)]
    | cons c cs =>
      rw [readSep_pos_cons sep c i hi] at h
      show readSep sep i inner (c :: (cs ++ t)) = none
      rw [readSep_pos_cons sep c i hi]
      by_cases hc : c = sep
      · rw [if_pos hc] at h ⊢
        exact hexn cs h
      · rw [if_neg hc]

theorem readIpv4_ext_some (u t : List Char) (a : Ipv4Addr) (rest : List Char)
    (ht : ∀ c, t.head? = some c → isV6Char c = false)
    (h : readIpv4 u = some (a, rest)) :
    readIpv4 (u ++ t) = some (a, rest ++ t) := by
  have ht10 : ∀ c, t.head? = some c → isRadixDigit 10 c = false := by
    intro c hc
    cases h10 : isRadixDigit 10 c
    · rfl
    · exact absurd (isV6Char_of_digit c (isRadixDigit_ten_to_sixteen c h10))
        (by rw [ht c hc]; simp)
  unfold readIpv4 at h
  split at h
  · cases h
  rename_i v1 s1 e1
  split at h
  · cases h
  rename_i v2 s2 e2
  split at h
  · cases h
  rename_i v3 s3 e3
  split at h
  · cases h
  rename_i v4 s4 e4
  injection h with h
  injection h with ha hs
  subst hs
  have e1' := readOctet_ext_some u t v1 s1 ht10 e1
  have e2' := readSep_ext_some '.' 1 readOctet s1 t v2 s2
    (fun u' hu' => readOctet_ext_some u' t _ _ ht10 hu') e2
  have e3' := readSep_ext_some '.' 2 readOctet s2 t v3 s3
    (fun u' hu' => readOctet_ext_some u' t _ _ ht10 hu') e3
  have e4' := readSep_ext_some '.' 3 readOctet s3 t v4 s4
    (fun u' hu' => readOctet_ext_some u' t _ _ ht10 hu') e4
  unfold readIpv4
  simp only [e1', e2', e3', e4']
  rw [ha]

theorem readIpv4_ext_none (u t : List Char)
    (ht : ∀ c, t.head? = some c → isV6Char c = false)
    (h : readIpv4 u = none) :
    readIpv4 (u ++ t) = none := by
  have ht10 : ∀ c, t.head? = some c → isRadixDigit 10 c = false := by
    intro c hc
    cases h10 : isRadixDigit 10 c
    · rfl
    · exact absurd (isV6Char_of_digit c (isRadixDigit_ten_to_sixteen c h10))
        (by rw [ht c hc]; simp)
  have htdot : ∀ c, t.head? = some c → c ≠ '.' := by
    intro c hc heq
    subst heq
    exact absurd (ht '.' hc) (by decide)
  have hsep : ∀ (i : Nat) (u' : List Char),
      readSep '.' i readOctet (u' ++ t) =
        (match readSep '.' i readOctet u' with
          | some (w, r) => some (w, r ++ t)
          | none => none) := by
    intro i u'
    cases hv : readSep '.' i readOctet u' with
    | some r =>
      exact readSep_ext_some '.' i readOctet u' t r.1 r.2
        (fun u'' h'' => readOctet_ext_some u'' t _ _ ht10 h'') hv
    | none =>
      exact readSep_ext_none '.' i readOctet u' t
        (fun u'' h'' => readOctet_ext_none u'' t ht10 h'') htdot hv
  unfold readIpv4 at h ⊢
  cases e1 : readOctet u with
  | none => simp only [readOctet_ext_none u t ht10 e1]
  | some r1 =>
    obtain ⟨v1, s1⟩ := r1
    simp only [e1] at h
    simp only [readOctet_ext_some u t v1 s1 ht10 e1]
    cases e2 : readSep '.' 1 readOctet s1 with
    | none => simp only [hsep 1 s1, e2]
    | some r2 =>
      obtain ⟨v2, s2⟩ := r2
      simp only [e2] at h
      simp only [hsep 1 s1, e2]
      cases e3 : readSep '.' 2 readOctet s2 with
      | none => simp only [hsep 2 s2, e3]
      | some r3 =>
        obtain ⟨v3, s3⟩ := r3
        simp only [e3] at h
        simp only [hsep 2 s2, e3]
        cases e4 : readSep '.' 3 readOctet s3 with
        | none => simp only [hsep 3 s3, e4]
        | some r4 =>
          obtain ⟨v4, s4⟩ := r4
          simp only [e4] at h
          cases h

theorem readGroupsAux_ext (t : List Char)
    (ht : ∀ c, t.head? = some c → isV6Char c = false) :
    ∀ (n i limit : Nat) (u : List Char),
    readGroupsAux limit n i (u ++ t) =
      ((readGroupsAux limit n i u).1, (readGroupsAux limit n i u).2.1,
        (readGroupsAux limit n i u).2.2 ++ t) := by
  have ht16 : ∀ c, t.head? = some c → isRadixDigit 16 c = false := by
    intro c hc
    cases h16 : isRadixDigit 16 c
    · rfl
    · exact absurd (isV6Char_of_digit c h16) (by rw [ht c hc]; simp)
  have hts : ∀ c, t.head? = some c → c ≠ ':' := by
    intro c hc heq
    subst heq
    exact absurd (ht ':' hc) (by decide)
  have hsep4 : ∀ (i : Nat) (u' : List Char),
      readSep ':' i readIpv4 (u' ++ t) =
        (match readSep ':' i readIpv4 u' with
          | some (w, r) => some (w, r ++ t)
          | none => none) := by
    intro i u'
    cases hv : readSep ':' i readIpv4 u' with
    | some r =>
      exact readSep_ext_some ':' i readIpv4 u' t r.1 r.2
        (fun u'' h'' => readIpv4_ext_some u'' t _ _ ht h'') hv
    | none =>
      exact readSep_ext_none ':' i readIpv4 u' t
        (fun u'' h'' => readIpv4_ext_none u'' t ht h'') hts hv
  have hsepG : ∀ (i : Nat) (u' : List Char),
      readSep ':' i readGroup (u' ++ t) =
        (match readSep ':' i readGroup u' with
          | some (w, r) => some (w, r ++ t)
          | none => none) := by
    intro i u'
    cases hv : readSep ':' i readGroup u' with
    | some r =>
      exact readSep_ext_some ':' i readGroup u' t r.1 r.2
        (fun u'' h'' => readGroup_ext_some u'' t _ _ ht16 h'') hv
    | none =>
      exact readSep_ext_none ':' i readGroup u' t
        (fun u'' h'' => readGroup_ext_none u'' t ht16 h'') hts hv
  intro n
  induction n with
  | zero => intro i limit u; rfl
  | succ n' ih =>
    intro i limit u
    simp only [readGroupsAux, hsep4 i u, hsepG i u]
    cases hv : readSep ':' i readIpv4 u with
    | some r =>
      obtain ⟨a, rr⟩ := r
      by_cases hc : i + 1 < limit
      · simp only [if_pos hc]
      · simp only [if_neg hc]
        cases hg : readSep ':' i readGroup u with
        | none => rfl
        | some rg =>
          obtain ⟨gv, rr'⟩ := rg
          simp only [ih (i + 1)]
    | none =>
      by_cases hc : i + 1 < limit
      · simp only [if_pos hc]
        cases hg : readSep ':' i readGroup u with
        | none => rfl
        | some rg =>
          obtain ⟨gv, rr'⟩ := rg
          simp only [ih (i + 1)]
      · simp only [if_neg hc]
        cases hg : readSep ':' i readGroup u with
        | none => rfl
        | some rg =>
          obtain ⟨gv, rr'⟩ := rg
          simp only [ih (i + 1)]

theorem readIpv6_ext (u t : List Char) (a : Ipv6Addr) (r : List Char)
    (ht : ∀ c, t.head? = some c → isV6Char c = false)
    (h : readIpv6 u = some (a, r)) :
    readIpv6 (u ++ t) = some (a, r ++ t) := by
  have hext := readGroupsAux_ext t ht
  simp only [readIpv6, readGroups] at h ⊢
  rw [hext 8 0 8 u]
  split at h
  · rename_i hlen8
    rw [if_pos hlen8]
    injection h with h
    injection h with h1 h2
    rw [h1, h2]
  · rename_i hlen8
    rw [if_neg hlen8]
    split at h
    · cases h
    · rename_i hv4
      rw [if_neg hv4]
      split at h
      · rename_i s1old s2 heq
        rw [heq]
        simp only [List.cons_append]
        rw [hext]
        injection h with h
        injection h with h1 h2
        rw [h1, h2]
      · cases h

/-! ### Characters consumed by the IPv6 reader -/

theorem ipv6FromStr_inv (A : List Char) (a : Ipv6Addr) (h : ipv6FromStr A = some a) :
    readIpv6 A = some (a, []) := by
  unfold ipv6FromStr at h
  split at h
  · rename_i a' heq
    injection h with h
    rw [← h]
    exact heq
  · cases h

theorem readGroupsAux_stop_or (limit n i : Nat) (s : List Char)
    (hv4 : readSep ':' i readIpv4 s = none ∨ ¬ (i + 1 < limit))
    (hg : readSep ':' i readGroup s = none) :
    readGroupsAux limit n i s = ([], false, s) := by
  cases n with
  | zero => rfl
  | succ n' =>
    rcases hv4 with hv4 | hc
    · simp only [readGroupsAux, hv4, hg, ite_self]
    · simp only [readGroupsAux, if_neg hc, hg]

theorem readSep_consumed {α : Type} (sep : Char) (i : Nat)
    (inner : List Char → Option (α × List Char)) (u : List Char) (v : α) (rest : List Char)
    (hinner : ∀ u' v' rest', inner u' = some (v', rest') →
      ∃ p, u' = p ++ rest' ∧ ∀ c ∈ p, isV6Char c = true)
    (hsep : isV6Char sep = true)
    (h : readSep sep i inner u = some (v, rest)) :
    ∃ p, u = p ++ rest ∧ ∀ c ∈ p, isV6Char c = true := by
  by_cases hi : i = 0
  · unfold readSep at h
    rw [if_pos hi] at h
    exact hinner u v rest h
  · obtain ⟨u', rfl, hin⟩ := readSep_pos_some_inv sep i hi inner u v rest h
    obtain ⟨p, hp, hpc⟩ := hinner u' v rest hin
    refine ⟨sep :: p, by rw [hp]; rfl, ?_⟩
    intro c hcp
    rcases List.mem_cons.mp hcp with rfl | hcp
    · exact hsep
    · exact hpc c hcp

theorem readGroup_v6chars (u : List Char) (v : Nat) (rest : List Char)
    (h : readGroup u = some (v, rest)) :
    ∃ p, u = p ++ rest ∧ ∀ c ∈ p, isV6Char c = true := by
  obtain ⟨ds, hu, _, hdig, _, _, _, _, _⟩ :=
    readNumber_some_inv 16 65535 (some 4) true u v rest h
  exact ⟨ds, hu, fun c hcp => isV6Char_of_digit c (hdig c hcp)⟩

theorem readIpv4_v6chars (u : List Char) (v : Ipv4Addr) (rest : List Char)
    (h : readIpv4 u = some (v, rest)) :
    ∃ p, u = p ++ rest ∧ ∀ c ∈ p, isV6Char c = true := by
  obtain ⟨p, hp, _, hpc, _, _⟩ := readIpv4_consumed u v rest h
  refine ⟨p, hp, ?_⟩
  intro c hcp
  rcases hpc c hcp with hd | rfl
  · exact isV6Char_of_digit c (isRadixDigit_ten_to_sixteen c hd)
  · decide

theorem readGroupsAux_consumed : ∀ (n i limit : Nat) (u : List Char),
    ∃ p, u = p ++ (readGroupsAux limit n i u).2.2 ∧ ∀ c ∈ p, isV6Char c = true := by
  intro n
  induction n with
  | zero => intro i limit u; exact ⟨[], rfl, by simp⟩
  | succ n' ih =>
    intro i limit u
    have hgroup : ∀ rg, readSep ':' i readGroup u = some rg →
        (readSep ':' i readIpv4 u = none ∨ ¬ (i + 1 < limit)) →
        ∃ p, u = p ++ (readGroupsAux limit (n' + 1) i u).2.2 ∧
          ∀ c ∈ p, isV6Char c = true := by
      intro rg hg hor
      rw [readGroupsAux_step_group limit (n' + 1) i u rg.1 rg.2 (by omega) hor (by rw [hg])]
      obtain ⟨p1, hp1, hc1⟩ := readSep_consumed ':' i readGroup u rg.1 rg.2
        readGroup_v6chars (by decide) (by rw [hg])
      obtain ⟨p2, hp2, hc2⟩ := ih (i + 1) limit rg.2
      refine ⟨p1 ++ p2, ?_, ?_⟩
      · simp only [Nat.add_sub_cancel]
        rw [hp1, List.append_assoc, ← hp2]
      · intro c hcp
        rcases List.mem_append.mp hcp with hcp | hcp
        · exact hc1 c hcp
        · exact hc2 c hcp
    by_cases hcnd : i + 1 < limit
    · cases hv : readSep ':' i readIpv4 u with
      | some rv =>
        rw [readGroupsAux_step_v4 limit (n' + 1) i u rv.1 rv.2 (by omega) hcnd (by rw [hv])]
        exact readSep_consumed ':' i readIpv4 u rv.1 rv.2 readIpv4_v6chars (by decide)
          (by rw [hv])
      | none =>
        cases hg : readSep ':' i readGroup u with
        | some rg => exact hgroup rg hg (Or.inl hv)
        | none =>
          rw [readGroupsAux_stop_or limit (n' + 1) i u (Or.inl hv) hg]
          exact ⟨[], rfl, by simp⟩
    · cases hg : readSep ':' i readGroup u with
      | some rg => exact hgroup rg hg (Or.inr hcnd)
      | none =>
        rw [readGroupsAux_stop_or limit (n' + 1) i u (Or.inr hcnd) hg]
        exact ⟨[], rfl, by simp⟩

theorem readIpv6_consumed (u : List Char) (a : Ipv6Addr) (r : List Char)
    (h : readIpv6 u = some (a, r)) :
    ∃ p, u = p ++ r ∧ ∀ c ∈ p, isV6Char c = true := by
  simp only [readIpv6, readGroups] at h
  obtain ⟨p1, hp1, hc1⟩ := readGroupsAux_consumed 8 0 8 u
  split at h
  · rename_i h8
    injection h with h
    injection h with h1 h2
    exact ⟨p1, by rw [← h2]; exact hp1, hc1⟩
  · split at h
    · cases h
    · split at h
      · rename_i s1old s2 heq
        obtain ⟨p2, hp2, hc2⟩ := readGroupsAux_consumed
          (8 - ((readGroupsAux 8 8 0 u).1.length + 1)) 0
          (8 - ((readGroupsAux 8 8 0 u).1.length + 1)) s2
        injection h with h
        injection h with h1 h2
        refine ⟨p1 ++ ':' :: ':' :: p2, ?_, ?_⟩
        · rw [hp1, heq, hp2, ← h2]
          simp [List.append_assoc]
        · intro c hcp
          rcases List.mem_append.mp hcp with hcp | hcp
          · exact hc1 c hcp
          · rcases List.mem_cons.mp hcp with rfl | hcp
            · decide
            · rcases List.mem_cons.mp hcp with rfl | hcp
              · decide
              · exact hc2 c hcp
      · cases h

theorem ipv6_chars (A : List Char) (a : Ipv6Addr) (h : ipv6FromStr A = some a) :
    ∀ c ∈ A, isV6Char c = true := by
  have h' := ipv6FromStr_inv A a h
  obtain ⟨p, hp, hpc⟩ := readIpv6_consumed A a [] h'
  rw [List.append_nil] at hp
  subst hp
  exact hpc

/-! ### Ports appended to rendered addresses -/

theorem digit_ne_chars (c : Char) (h : isRadixDigit 10 c = true) :
    c ≠ '%' ∧ c ≠ '/' ∧ c ≠ '[' ∧ c ≠ ']' ∧ c ≠ ':' := by
  refine ⟨?_, ?_, ?_, ?_, ?_⟩ <;> rintro rfl <;> exact absurd h (by decide)

theorem natDigits_getLast (x : Nat) :
    ∃ c, (natDigits x).getLast? = some c ∧ isRadixDigit 10 c = true := by
  have hs := natDigits_spec x
  refine ⟨(natDigits x).getLast hs.1, List.getLast?_eq_getLast _ hs.1, ?_⟩
  exact hs.2.1 _ (List.getLast_mem hs.1)

theorem ipv4Display_ne_nil (a : Ipv4Addr) : ipv4Display a ≠ [] := by
  rw [ipv4Display_shape]
  intro h
  exact (natDigits_spec a.o1).1 (List.append_eq_nil.mp h).1

theorem stripSocket_pre_not_tag (s pre post : List Char)
    (hsp : splitFirst ':' s = some (pre, post)) (x : Char) (hx : x ∈ pre)
    (hxt : isTagChar x = false) : stripSocket s = s := by
  simp only [stripSocket, hsp]
  rw [if_neg]
  rintro ⟨hall, -⟩
  have hx' := List.all_eq_true.mp hall x hx
  rw [hxt] at hx'
  exact absurd hx' (by decide)

theorem stripSocket_head_not_tag (s : List Char) (c0 : Char) (h0 : s.head? = some c0)
    (hc0 : isTagChar c0 = false) : stripSocket s = s := by
  cases hsp : splitFirst ':' s with
  | none => simp only [stripSocket, hsp]
  | some pq =>
    obtain ⟨pre, post⟩ := pq
    obtain ⟨hs, -⟩ := splitFirst_some_inv ':' s pre post hsp
    cases pre with
    | nil =>
      simp only [stripSocket, hsp]
      rw [if_neg]
      rintro ⟨-, hne, -⟩
      exact hne rfl
    | cons y ys =>
      refine stripSocket_pre_not_tag s (y :: ys) post hsp y (List.mem_cons_self y ys) ?_
      have hy : y = c0 := by
        rw [hs] at h0
        simp only [List.cons_append, List.head?_cons] at h0
        injection h0 with h0
      rw [hy]
      exact hc0

theorem readIpv6_none_of_head (s : List Char) (c0 : Char) (h0 : s.head? = some c0)
    (hd : isRadixDigit 16 c0 = false) (hcol : c0 ≠ ':') : readIpv6 s = none := by
  have hd10 : isRadixDigit 10 c0 = false := by
    cases h10 : isRadixDigit 10 c0 with
    | false => rfl
    | true =>
      rw [isRadixDigit_ten_to_sixteen c0 h10] at hd
      exact absurd hd (by decide)
  have hdf : ∀ c, s.head? = some c → isRadixDigit 10 c = false := by
    intro c hcc
    rw [h0] at hcc
    injection hcc with hcc
    rw [← hcc]
    exact hd10
  have hdf16 : ∀ c, s.head? = some c → isRadixDigit 16 c = false := by
    intro c hcc
    rw [h0] at hcc
    injection hcc with hcc
    rw [← hcc]
    exact hd
  have hstop : readGroupsAux 8 8 0 s = ([], false, s) := by
    apply readGroupsAux_stop
    · unfold readSep
      rw [if_pos rfl]
      exact readIpv4_none_of_head _ hdf
    · unfold readSep
      rw [if_pos rfl]
      exact readNumber_none_of_head _ _ _ _ _ hdf16
  simp only [readIpv6, readGroups, hstop]
  norm_num
  split
  · simp only [List.head?_cons] at h0
    injection h0 with h0
    exact absurd h0.symm hcol
  · rfl

theorem bareStage_error (w : List Char) (h : ipAddrFromStr w = none) :
    bareStage w = .error ("Invalid IP address: " ++ String.mk w) := by
  unfold bareStage
  rw [h]

theorem ipAddrFromStr_none_v4rest (w : List Char) (a : Ipv4Addr) (x : Char) (xs : List Char)
    (h : readIpv4 w = some (a, x :: xs)) : ipAddrFromStr w = none := by
  unfold ipAddrFromStr readIpAddr
  simp only [h]

theorem ipAddrFromStr_none_of_none (w : List Char) (h4 : readIpv4 w = none)
    (h6 : readIpv6 w = none) : ipAddrFromStr w = none := by
  unfold ipAddrFromStr readIpAddr
  simp only [h4, h6]

theorem readPort_natDigits (x : Nat) (hx : x ≤ 65535) :
    readPort (':' :: natDigits x) = some (x, []) := by
  have hs := natDigits_spec x
  have h := readNumber_eq_of 10 65535 none true (natDigits x) [] hs.2.1
    (fun c hc => by cases hc) hs.1 (fun m hm => by cases hm)
    (fun hz => absurd hz (by decide)) (by rw [hs.2.2.1]; exact hx)
  rw [List.append_nil] at h
  rw [hs.2.2.1] at h
  unfold readPort
  split
  · rename_i rest heq
    injection heq with h1 h2
    rw [← h2]
    exact h
  · rename_i hne
    exact absurd rfl (hne (natDigits x))

theorem readPort_none_of_big (q : Nat) (hq : 65535 < q) :
    readPort (':' :: natDigits q) = none := by
  have hs := natDigits_spec q
  have h := readNumber_none_of_big 10 65535 none true (natDigits q) hs.2.1
    (by rw [hs.2.2.1]; exact hq)
  unfold readPort
  split
  · rename_i rest heq
    injection heq with h1 h2
    rw [← h2]
    exact h
  · rfl

theorem readScopeId_not_percent (c : Char) (l : List Char) (h : c ≠ '%') :
    readScopeId (c :: l) = none := by
  unfold readScopeId
  split
  · rename_i rest heq
    injection heq with h1 h2
    exact absurd h1 h
  · rfl

theorem readSocketV6_bracketed (A : List Char) (addr : Ipv6Addr) (x : Nat) (P : List Char)
    (hv6 : readIpv6 (A ++ ']' :: ':' :: P) = some (addr, ']' :: ':' :: P))
    (hport : readPort (':' :: P) = some (x, [])) :
    readSocketV6 ('[' :: (A ++ ']' :: ':' :: P)) = some ((addr, x), []) := by
  unfold readSocketV6
  split
  · rename_i s1 heq
    injection heq with h1 h2
    rw [← h2, hv6]
    simp only [readScopeId_not_percent ']' (':' :: P) (by decide), hport]
  · rename_i hne
    exact absurd rfl (hne (A ++ ']' :: ':' :: P))

theorem readSocketV6_bracketed_none (A : List Char) (addr : Ipv6Addr) (P : List Char)
    (hv6 : readIpv6 (A ++ ']' :: ':' :: P) = some (addr, ']' :: ':' :: P))
    (hport : readPort (':' :: P) = none) :
    readSocketV6 ('[' :: (A ++ ']' :: ':' :: P)) = none := by
  unfold readSocketV6
  split
  · rename_i s1 heq
    injection heq with h1 h2
    rw [← h2, hv6]
    simp only [readScopeId_not_percent ']' (':' :: P) (by decide), hport]
  · rfl

theorem socketAddrFromStr_v4 (s : List Char) (a : Ipv4Addr) (x : Nat)
    (h4 : readSocketV4 s = some ((a, x), [])) :
    socketAddrFromStr s = some (.V4 a, x) := by
  unfold socketAddrFromStr
  simp only [h4]

theorem socketAddrFromStr_v6 (s : List Char) (addr : Ipv6Addr) (x : Nat)
    (h4 : readSocketV4 s = none) (h6 : readSocketV6 s = some ((addr, x), [])) :
    socketAddrFromStr s = some (.V6 addr, x) := by
  unfold socketAddrFromStr
  simp only [h4, h6]

theorem parseAfterStrip_socket (w : List Char) (v : IpAddr) (x : Nat)
    (h : socketAddrFromStr w = some (v, x)) :
    parseAfterStrip w = .ok (ipVersionFromIpAddr v, some x) := by
  unfold parseAfterStrip
  simp only [h]

theorem v4_port_pipeline (a : Ipv4Addr) (P : List Char)
    (hP : ∀ c ∈ P, isRadixDigit 10 c = true) :
    removeWhitespace (ipv4Display a ++ ':' :: P) = ipv4Display a ++ ':' :: P ∧
    stripScheme (ipv4Display a ++ ':' :: P) = ipv4Display a ++ ':' :: P ∧
    stripSocket (ipv4Display a ++ ':' :: P) = ipv4Display a ++ ':' :: P ∧
    (ipv4Display a ++ ':' :: P).contains '%' = false := by
  have hmem : ∀ c ∈ ipv4Display a ++ ':' :: P,
      isRadixDigit 10 c = true ∨ c = '.' ∨ c = ':' := by
    intro c hc
    rcases List.mem_append.mp hc with hc | hc
    · rcases mem_ipv4Display a c hc with h | h
      · exact Or.inl h
      · exact Or.inr (Or.inl h)
    · rcases List.mem_cons.mp hc with rfl | hc
      · exact Or.inr (Or.inr rfl)
      · exact Or.inl (hP c hc)
  refine ⟨?_, ?_, ?_, ?_⟩
  · apply removeWhitespace_eq_self
    intro c hc
    rcases hmem c hc with h | rfl | rfl
    · exact isWsChar_false_of c (by have := (isRadixDigit_ten_iff c).mp h; omega)
    · decide
    · decide
  · unfold stripScheme
    rw [findSchemeSplit_none_of_no_slash _ (fun hm => by
      rcases hmem '/' hm with h | h | h
      · exact absurd h (by decide)
      · exact absurd h (by decide)
      · exact absurd h (by decide))]
    rfl
  · have hnc : ':' ∉ ipv4Display a := by
      intro hm
      rcases mem_ipv4Display a ':' hm with h | h
      · exact absurd h (by decide)
      · exact absurd h (by decide)
    have hdot : '.' ∈ ipv4Display a := by
      rw [ipv4Display_shape]
      simp
    exact stripSocket_pre_not_tag _ (ipv4Display a) P (splitFirst_append ':' _ P hnc)
      '.' hdot (by decide)
  · rw [contains_eq_false_iff]
    intro hm
    rcases hmem '%' hm with h | h | h
    · exact absurd h (by decide)
    · exact absurd h (by decide)
    · exact absurd h (by decide)

theorem parse_v4_port_ok (a : Ipv4Addr) (p : Nat) (h1 : a.o1 ≤ 255) (h2 : a.o2 ≤ 255)
    (h3 : a.o3 ≤ 255) (h4 : a.o4 ≤ 255) (hp : p ≤ 65535) :
    parseChars (ipv4Display a ++ ':' :: natDigits p) = .ok (.V4 a, some p) := by
  obtain ⟨hnws, hscheme, hsock, hpc⟩ := v4_port_pipeline a (natDigits p) (natDigits_spec p).2.1
  have hv4 : readIpv4 (ipv4Display a ++ ':' :: natDigits p) = some (a, ':' :: natDigits p) :=
    readIpv4_display a h1 h2 h3 h4 _ (colon_head_not_digit 10 _)
  have hs4 : readSocketV4 (ipv4Display a ++ ':' :: natDigits p) = some ((a, p), []) := by
    unfold readSocketV4
    simp only [hv4, readPort_natDigits p hp]
  have hsa := socketAddrFromStr_v4 _ a p hs4
  unfold parseChars
  rw [hnws, hscheme, hsock, parseAfterStrip_socket _ _ _ hsa]
  rfl

theorem parse_v4_port_big (a : Ipv4Addr) (q : Nat) (h1 : a.o1 ≤ 255) (h2 : a.o2 ≤ 255)
    (h3 : a.o3 ≤ 255) (h4 : a.o4 ≤ 255) (hq : 65535 < q) :
    parseChars (ipv4Display a ++ ':' :: natDigits q) =
      .error ("Invalid IP address: " ++ String.mk (ipv4Display a ++ ':' :: natDigits q)) := by
  obtain ⟨hnws, hscheme, hsock, hpc⟩ := v4_port_pipeline a (natDigits q) (natDigits_spec q).2.1
  have hv4 : readIpv4 (ipv4Display a ++ ':' :: natDigits q) = some (a, ':' :: natDigits q) :=
    readIpv4_display a h1 h2 h3 h4 _ (colon_head_not_digit 10 _)
  have hs4 : readSocketV4 (ipv4Display a ++ ':' :: natDigits q) = none := by
    unfold readSocketV4
    simp only [hv4, readPort_none_of_big q hq]
  obtain ⟨c0, hc0, hd0⟩ := ipv4Display_head a
  have hhead : (ipv4Display a ++ ':' :: natDigits q).head? = some c0 := by
    rw [head?_append_left _ _ (ipv4Display_ne_nil a), hc0]
  have hs6 : readSocketV6 (ipv4Display a ++ ':' :: natDigits q) = none := by
    apply readSocketV6_not_bracket
    intro c hc
    rw [hhead] at hc
    injection hc with hc
    rw [← hc]
    exact (digit_ne_chars c0 hd0).2.2.1
  have hsa : socketAddrFromStr (ipv4Display a ++ ':' :: natDigits q) = none := by
    apply socketAddrFromStr_none
    · intro r hr
      rw [hs4] at hr
      cases hr
    · exact hs6
  have hbr : ¬ ((ipv4Display a ++ ':' :: natDigits q).head? = some '[' ∧
      (ipv4Display a ++ ':' :: natDigits q).getLast? = some ']') := by
    rintro ⟨hh, -⟩
    rw [hhead] at hh
    injection hh with hh
    exact (digit_ne_chars c0 hd0).2.2.1 hh
  have hbare : ipAddrFromStr (ipv4Display a ++ ':' :: natDigits q) = none :=
    ipAddrFromStr_none_v4rest _ a ':' (natDigits q) hv4
  unfold parseChars
  rw [hnws, hscheme, hsock, parseAfterStrip_bare _ hsa hbr hpc, bareStage_error _ hbare]

theorem v6_port_pipeline (A P : List Char) (hA : ∀ c ∈ A, isV6Char c = true)
    (hP : ∀ c ∈ P, isRadixDigit 10 c = true) :
    removeWhitespace ('[' :: (A ++ ']' :: ':' :: P)) = '[' :: (A ++ ']' :: ':' :: P) ∧
    stripScheme ('[' :: (A ++ ']' :: ':' :: P)) = '[' :: (A ++ ']' :: ':' :: P) ∧
    stripSocket ('[' :: (A ++ ']' :: ':' :: P)) = '[' :: (A ++ ']' :: ':' :: P) ∧
    ('[' :: (A ++ ']' :: ':' :: P)).contains '%' = false := by
  have hmem : ∀ c ∈ '[' :: (A ++ ']' :: ':' :: P),
      c = '[' ∨ isV6Char c = true ∨ c = ']' ∨ c = ':' ∨ isRadixDigit 10 c = true := by
    intro c hc
    rcases List.mem_cons.mp hc with rfl | hc
    · exact Or.inl rfl
    rcases List.mem_append.mp hc with hc | hc
    · exact Or.inr (Or.inl (hA c hc))
    rcases List.mem_cons.mp hc with rfl | hc
    · exact Or.inr (Or.inr (Or.inl rfl))
    rcases List.mem_cons.mp hc with rfl | hc
    · exact Or.inr (Or.inr (Or.inr (Or.inl rfl)))
    · exact Or.inr (Or.inr (Or.inr (Or.inr (hP c hc))))
  refine ⟨?_, ?_, ?_, ?_⟩
  · apply removeWhitespace_eq_self
    intro c hc
    rcases hmem c hc with rfl | h | rfl | rfl | h
    · decide
    · exact isV6Char_not_ws c h
    · decide
    · decide
    · exact isWsChar_false_of c (by have := (isRadixDigit_ten_iff c).mp h; omega)
  · unfold stripScheme
    rw [findSchemeSplit_none_of_no_slash _ (fun hm => by
      rcases hmem '/' hm with h | h | h | h | h
      · exact absurd h (by decide)
      · exact (isV6Char_ne_chars '/' h).2.2.1 rfl
      · exact absurd h (by decide)
      · exact absurd h (by decide)
      · exact (digit_ne_chars '/' h).2.1 rfl)]
    rfl
  · exact stripSocket_head_not_tag _ '[' rfl (by decide)
  · rw [contains_eq_false_iff]
    intro hm
    rcases hmem '%' hm with h | h | h | h | h
    · exact absurd h (by decide)
    · exact (isV6Char_ne_chars '%' h).2.1 rfl
    · exact absurd h (by decide)
    · exact absurd h (by decide)
    · exact (digit_ne_chars '%' h).1 rfl

theorem readIpv6_before_bracket (A P : List Char) (addr : Ipv6Addr)
    (hA : ipv6FromStr A = some addr) :
    readIpv6 (A ++ ']' :: ':' :: P) = some (addr, ']' :: ':' :: P) := by
  have h := readIpv6_ext A (']' :: ':' :: P) addr []
    (fun c hc => by
      simp only [List.head?_cons] at hc
      injection hc with hc
      rw [← hc]
      decide)
    (ipv6FromStr_inv A addr hA)
  rw [List.nil_append] at h
  exact h

theorem parse_v6_port_ok (A : List Char) (addr : Ipv6Addr) (p : Nat)
    (hA : ipv6FromStr A = some addr) (hp : p ≤ 65535) :
    parseChars ('[' :: (A ++ ']' :: ':' :: natDigits p)) = .ok (.V6 addr, some p) := by
  obtain ⟨hnws, hscheme, hsock, hpc⟩ :=
    v6_port_pipeline A (natDigits p) (ipv6_chars A addr hA) (natDigits_spec p).2.1
  have hs6 := readSocketV6_bracketed A addr p (natDigits p)
    (readIpv6_before_bracket A (natDigits p) addr hA) (readPort_natDigits p hp)
  have hs4 : readSocketV4 ('[' :: (A ++ ']' :: ':' :: natDigits p)) = none := by
    unfold readSocketV4
    rw [readIpv4_none_of_head _ (fun c hc => by
      simp only [List.head?_cons] at hc
      injection hc with hc
      rw [← hc]
      decide)]
  have hsa := socketAddrFromStr_v6 _ addr p hs4 hs6
  unfold parseChars
  rw [hnws, hscheme, hsock, parseAfterStrip_socket _ _ _ hsa]
  rfl

theorem parse_v6_port_big (A : List Char) (addr : Ipv6Addr) (q : Nat)
    (hA : ipv6FromStr A = some addr) (hq : 65535 < q) :
    parseChars ('[' :: (A ++ ']' :: ':' :: natDigits q)) =
      .error ("Invalid IP address: " ++
        String.mk ('[' :: (A ++ ']' :: ':' :: natDigits q))) := by
  obtain ⟨hnws, hscheme, hsock, hpc⟩ :=
    v6_port_pipeline A (natDigits q) (ipv6_chars A addr hA) (natDigits_spec q).2.1
  have hs6 := readSocketV6_bracketed_none A addr (natDigits q)
    (readIpv6_before_bracket A (natDigits q) addr hA) (readPort_none_of_big q hq)
  have hs4 : readSocketV4 ('[' :: (A ++ ']' :: ':' :: natDigits q)) = none := by
    unfold readSocketV4
    rw [readIpv4_none_of_head _ (fun c hc => by
      simp only [List.head?_cons] at hc
      injection hc with hc
      rw [← hc]
      decide)]
  have hsa : socketAddrFromStr ('[' :: (A ++ ']' :: ':' :: natDigits q)) = none := by
    apply socketAddrFromStr_none
    · intro r hr
      rw [hs4] at hr
      cases hr
    · exact hs6
  have hlast : ('[' :: (A ++ ']' :: ':' :: natDigits q)).getLast? ≠ some ']' := by
    obtain ⟨c, hcl, hcd⟩ := natDigits_getLast q
    have hsh : ('[' :: (A ++ ']' :: ':' :: natDigits q)) =
        ('[' :: A ++ [']', ':']) ++ natDigits q := by simp
    rw [hsh, List.getLast?_append_of_ne_nil _ (natDigits_spec q).1, hcl]
    intro hm
    injection hm with hm
    exact (digit_ne_chars c hcd).2.2.2.1 hm
  have hbr : ¬ (('[' :: (A ++ ']' :: ':' :: natDigits q)).head? = some '[' ∧
      ('[' :: (A ++ ']' :: ':' :: natDigits q)).getLast? = some ']') :=
    fun hh => hlast hh.2
  have hbare : ipAddrFromStr ('[' :: (A ++ ']' :: ':' :: natDigits q)) = none := by
    apply ipAddrFromStr_none_of_none
    · exact readIpv4_none_of_head _ (fun c hc => by
        simp only [List.head?_cons] at hc
        injection hc with hc
        rw [← hc]
        decide)
    · exact readIpv6_none_of_head _ '[' rfl (by decide) (by decide)
  unfold parseChars
  rw [hnws, hscheme, hsock, parseAfterStrip_bare _ hsa hbr hpc, bareStage_error _ hbare]

/-! ### Claim C8 -/

/-- C8: for `quad:port` (IPv4) and `[A]:port` (bracketed IPv6) inputs with a
decimal port, `parse` returns exactly `Some(port)` when the port value is at
most 65535, and returns an error for any larger port value - the port is never
truncated, clamped, or reduced modulo 65536. -/
theorem C8_port_range (a : Ipv4Addr) (A : List Char) (addr : Ipv6Addr) (p q : Nat)
    (h1 : a.o1 ≤ 255) (h2 : a.o2 ≤ 255) (h3 : a.o3 ≤ 255) (h4 : a.o4 ≤ 255)
    (hA : ipv6FromStr A = some addr) (hp : p ≤ 65535) (hq : 65535 < q) :
    parseChars (ipv4Display a ++ ':' :: natDigits p) = .ok (.V4 a, some p) ∧
    (∃ e, parseChars (ipv4Display a ++ ':' :: natDigits q) = .error e) ∧
    parseChars ('[' :: (A ++ ']' :: ':' :: natDigits p)) = .ok (.V6 addr, some p) ∧
    (∃ e, parseChars ('[' :: (A ++ ']' :: ':' :: natDigits q)) = .error e) :=
  ⟨parse_v4_port_ok a p h1 h2 h3 h4 hp,
   ⟨_, parse_v4_port_big a q h1 h2 h3 h4 hq⟩,
   parse_v6_port_ok A addr p hA hp,
   ⟨_, parse_v6_port_big A addr q hA hq⟩⟩

/-- C8 witness: ports 80 (in range) and 99999 (out of range) after
"192.168.1.1" and "[::1]". -/
theorem C8_port_range_witness :
    parseChars (ipv4Display ⟨192, 168, 1, 1⟩ ++ ':' :: natDigits 80) =
      .ok (.V4 ⟨192, 168, 1, 1⟩, some 80) ∧
    (∃ e, parseChars (ipv4Display ⟨192, 168, 1, 1⟩ ++ ':' :: natDigits 99999) = .error e) ∧
    parseChars ('[' :: ([':', ':', '1'] ++ ']' :: ':' :: natDigits 80)) =
      .ok (.V6 ⟨[0, 0, 0, 0, 0, 0, 0, 1]⟩, some 80) ∧
    (∃ e, parseChars ('[' :: ([':', ':', '1'] ++ ']' :: ':' :: natDigits 99999)) =
      .error e) :=
  C8_port_range ⟨192, 168, 1, 1⟩ [':', ':', '1'] ⟨[0, 0, 0, 0, 0, 0, 0, 1]⟩ 80 99999
    (by decide) (by decide) (by decide) (by decide) (by decide) (by decide) (by decide)

/-! ### Colon counting: an unbracketed IPv6 literal can never carry a port -/

theorem mem_of_head?_eq {α : Type} (l : List α) (c : α) (h : l.head? = some c) : c ∈ l := by
  cases l with
  | nil => cases h
  | cons y ys =>
    simp only [List.head?_cons] at h
    injection h with h
    rw [← h]
    exact List.mem_cons_self y ys

theorem readSocketV4_full_one_colon (w : List Char) (r : (Ipv4Addr × Nat) × List Char)
    (h : readSocketV4 w = some r) (h2 : r.2 = []) : w.count ':' = 1 := by
  unfold readSocketV4 at h
  split at h
  · rename_i a s1 hv4
    split at h
    · rename_i p s2 hport
      injection h with h
      subst h
      have hs2 : s2 = [] := h2
      obtain ⟨p4, hw, -, hcls, -, -⟩ := readIpv4_consumed w a s1 hv4
      unfold readPort at hport
      split at hport
      · rename_i rest
        obtain ⟨ds, hrest, -, hdig, -, -, -, -, -⟩ :=
          readNumber_some_inv 10 65535 none true rest p s2 hport
        have hc4 : p4.count ':' = 0 := List.count_eq_zero.mpr (fun hm => by
          rcases hcls ':' hm with hcx | hcx
          · exact absurd hcx (by decide)
          · exact absurd hcx (by decide))
        have hcds : ds.count ':' = 0 := List.count_eq_zero.mpr (fun hm =>
          (digit_ne_chars ':' (hdig ':' hm)).2.2.2.2 rfl)
        subst hs2
        rw [hw, hrest]
        simp [List.count_append, hc4, hcds]
      · cases hport
    · cases h
  · cases h

theorem socketAddrFromStr_none_of_colons (w : List Char) (hw : 2 ≤ w.count ':')
    (hnb : ∀ c, w.head? = some c → c ≠ '[') :
    socketAddrFromStr w = none := by
  apply socketAddrFromStr_none
  · intro r hr hr2
    have := readSocketV4_full_one_colon w r hr hr2
    omega
  · exact readSocketV6_not_bracket w hnb

theorem readGroupsAux_colons : ∀ (n i limit : Nat) (u : List Char) (gs : List Nat)
    (b : Bool) (s' : List Char), readGroupsAux limit n i u = (gs, b, s') →
    ∃ p, u = p ++ s' ∧
      gs.length - cond b 1 0 - (if i = 0 then 1 else 0) ≤ p.count ':' := by
  intro n
  induction n with
  | zero =>
    intro i limit u gs b s' h
    have h' : (([] : List Nat), false, u) = (gs, b, s') := h
    injection h' with h1 h'
    injection h' with h2 h3
    subst h1
    subst h3
    exact ⟨[], rfl, by simp⟩
  | succ n' ih =>
    intro i limit u gs b s' h
    by_cases hv4s : ∃ rv, (i + 1 < limit) ∧ readSep ':' i readIpv4 u = some rv
    · obtain ⟨rv, hcnd, hv⟩ := hv4s
      rw [readGroupsAux_step_v4 limit (n' + 1) i u rv.1 rv.2 (by omega) hcnd (by rw [hv])] at h
      injection h with h1 h'
      injection h' with h2 h3
      subst h1
      subst h3
      subst h2
      by_cases hi : i = 0
      · subst hi
        have hv' : readIpv4 u = some (rv.1, rv.2) := by
          have hx := hv
          unfold readSep at hx
          rw [if_pos rfl] at hx
          exact hx
        obtain ⟨p, hp, -, -, -, -⟩ := readIpv4_consumed u rv.1 rv.2 hv'
        exact ⟨p, hp, by simp⟩
      · obtain ⟨s'', hs'', hv'⟩ := readSep_pos_some_inv ':' i hi readIpv4 u rv.1 rv.2 hv
        obtain ⟨p, hp, -, -, -, -⟩ := readIpv4_consumed s'' rv.1 rv.2 hv'
        refine ⟨':' :: p, ?_, ?_⟩
        · rw [hs'', hp]
          rfl
        · simp [hi, List.count_cons_self]
    · have hor : readSep ':' i readIpv4 u = none ∨ ¬ (i + 1 < limit) := by
        by_cases hcnd : i + 1 < limit
        · cases hv : readSep ':' i readIpv4 u with
          | some rv => exact absurd ⟨rv, hcnd, hv⟩ hv4s
          | none => exact Or.inl rfl
        · exact Or.inr hcnd
      cases hg : readSep ':' i readGroup u with
      | some rg =>
        rw [readGroupsAux_step_group limit (n' + 1) i u rg.1 rg.2 (by omega) hor
          (by rw [hg])] at h
        simp only [Nat.add_sub_cancel] at h
        rcases hR : readGroupsAux limit n' (i + 1) rg.2 with ⟨gs2, b2, s2⟩
        simp only [hR] at h
        injection h with h1 h'
        injection h' with h2 h3
        subst h1
        subst h3
        subst h2
        obtain ⟨p2, hp2, hb2⟩ := ih (i + 1) limit rg.2 gs2 b2 s2 hR
        rw [if_neg (by omega : ¬ (i + 1 = 0))] at hb2
        by_cases hi : i = 0
        · subst hi
          have hg' : readGroup u = some (rg.1, rg.2) := by
            have hx := hg
            unfold readSep at hx
            rw [if_pos rfl] at hx
            exact hx
          obtain ⟨ds, hds, -, -, -, -, -, -, -⟩ :=
            readNumber_some_inv 16 65535 (some 4) true u rg.1 rg.2 hg'
          refine ⟨ds ++ p2, ?_, ?_⟩
          · rw [hds, hp2, List.append_assoc]
          · have e0 : (if (0 : Nat) = 0 then 1 else 0) = 1 := rfl
            rw [e0, List.length_cons, List.count_append]
            cases b2 with
            | false =>
              rw [Bool.cond_false] at hb2 ⊢
              omega
            | true =>
              rw [Bool.cond_true] at hb2 ⊢
              omega
        · obtain ⟨s'', hs'', hg'⟩ := readSep_pos_some_inv ':' i hi readGroup u rg.1 rg.2 hg
          obtain ⟨ds, hds, -, -, -, -, -, -, -⟩ :=
            readNumber_some_inv 16 65535 (some 4) true s'' rg.1 rg.2 hg'
          refine ⟨':' :: (ds ++ p2), ?_, ?_⟩
          · rw [hs'', hds, hp2]
            simp [List.append_assoc]
          · rw [if_neg hi, List.length_cons, List.count_cons_self, List.count_append]
            cases b2 with
            | false =>
              rw [Bool.cond_false] at hb2 ⊢
              omega
            | true =>
              rw [Bool.cond_true] at hb2 ⊢
              omega
      | none =>
        rw [readGroupsAux_stop_or limit (n' + 1) i u hor hg] at h
        injection h with h1 h'
        injection h' with h2 h3
        subst h1
        subst h3
        exact ⟨[], rfl, by simp⟩

theorem ipv6_two_colons (A : List Char) (a : Ipv6Addr) (h : ipv6FromStr A = some a) :
    2 ≤ A.count ':' := by
  have h' := ipv6FromStr_inv A a h
  simp only [readIpv6, readGroups] at h'
  rcases hgr : readGroupsAux 8 8 0 A with ⟨gs, b, s1⟩
  rw [hgr] at h'
  obtain ⟨p, hp, hcount⟩ := readGroupsAux_colons 8 0 8 A gs b s1 hgr
  split at h'
  · rename_i h8
    injection h' with h'
    injection h' with h1 h2
    subst h2
    rw [hp, List.append_nil]
    have h8' : gs.length = 8 := h8
    rw [h8', if_pos rfl] at hcount
    cases b with
    | false => simp only [Bool.cond_false, Nat.sub_zero] at hcount; omega
    | true => simp only [Bool.cond_true] at hcount; omega
  · split at h'
    · cases h'
    · split at h'
      · rename_i s2 heq
        rw [hp]
        have heq' : s1 = ':' :: ':' :: s2 := heq
        have hc1 : (s1 : List Char).count ':' = s2.count ':' + 1 + 1 := by
          rw [heq']
          simp [List.count_cons_self]
        rw [List.count_append]
        omega
      · cases h'

theorem bare_no_port (w : List Char) (r : IpVersion × Option Nat)
    (h : bareStage w = .ok r) : r.2 = none := by
  unfold bareStage at h
  split at h
  · injection h with h
    rw [← h]
  · cases h

theorem parseAfterStrip_no_port (w : List Char)
    (hsa : socketAddrFromStr w = none) :
    ∀ r, parseAfterStrip w = .ok r → r.2 = none := by
  intro r hr
  unfold parseAfterStrip at hr
  simp only [hsa] at hr
  split at hr
  · split at hr
    · injection hr with hr
      rw [← hr]
    · cases hr
  · split at hr
    · split at hr
      · injection hr with hr
        rw [← hr]
      · exact bare_no_port w r hr
    · exact bare_no_port w r hr

/-! ### Claim C4 -/

/-- C4 counterexample: "::1:80" is the valid unbracketed IPv6 literal "::1"
followed by ':' and the decimal port text "80", yet `parse` does not return an
error - the bare-literal stage succeeds, absorbing ":80" as one more hex group.
This refutes the claim that every such input reaches no successful stage. -/
theorem C4_unbracketed_port_counterexample :
    ipv6FromStr [':', ':', '1'] = some ⟨[0, 0, 0, 0, 0, 0, 0, 1]⟩ ∧
    (∀ c ∈ ['8', '0'], isRadixDigit 10 c = true) ∧
    parseChars ([':', ':', '1'] ++ ':' :: ['8', '0']) =
      .ok (.V6 ⟨[0, 0, 0, 0, 0, 0, 1, 128]⟩, none) := by
  refine ⟨by decide, by decide, by decide⟩

/-- C4 amended: what does hold of an unbracketed IPv6 literal followed by ':'
and decimal port text is the claim's port clause - the result is never an
address paired with `Some(port)`: whenever `parse` succeeds on such an input,
the returned port is `None`. -/
theorem C4_unbracketed_port_amended (A P : List Char) (a : Ipv6Addr)
    (hA : ipv6FromStr A = some a) (hP : ∀ c ∈ P, isRadixDigit 10 c = true) :
    ∀ r, parseChars (A ++ ':' :: P) = .ok r → r.2 = none := by
  have hAchars := ipv6_chars A a hA
  have hcA := ipv6_two_colons A a hA
  have hall : ∀ c ∈ A ++ ':' :: P, isV6Char c = true := by
    intro c hc
    rcases List.mem_append.mp hc with hc | hc
    · exact hAchars c hc
    rcases List.mem_cons.mp hc with rfl | hc
    · decide
    · exact isV6Char_of_digit c (isRadixDigit_ten_to_sixteen c (hP c hc))
  have hnws : removeWhitespace (A ++ ':' :: P) = A ++ ':' :: P :=
    removeWhitespace_eq_self _ (fun c hc => isV6Char_not_ws c (hall c hc))
  have hscheme : stripScheme (A ++ ':' :: P) = A ++ ':' :: P := by
    unfold stripScheme
    rw [findSchemeSplit_none_of_no_slash _
      (fun hm => (isV6Char_ne_chars '/' (hall '/' hm)).2.2.1 rfl)]
    rfl
  have hcw : 2 ≤ (A ++ ':' :: P).count ':' := by
    rw [List.count_append, List.count_cons_self]
    omega
  have hhead0 : ∀ c, (A ++ ':' :: P).head? = some c → c ≠ '[' := by
    intro c hc
    exact (isV6Char_ne_chars c (hall c (mem_of_head?_eq _ c hc))).1
  have hsa : socketAddrFromStr (stripSocket (A ++ ':' :: P)) = none := by
    cases hsp : splitFirst ':' (A ++ ':' :: P) with
    | none =>
      rw [show stripSocket (A ++ ':' :: P) = A ++ ':' :: P from by
        simp only [stripSocket, hsp]]
      exact socketAddrFromStr_none_of_colons _ hcw hhead0
    | some pq =>
      obtain ⟨pre, post⟩ := pq
      obtain ⟨hw0, hpre⟩ := splitFirst_some_inv ':' _ pre post hsp
      have hcpost : 2 ≤ post.count ':' := by
        have h1 : (A ++ ':' :: P).count ':' = pre.count ':' + (post.count ':' + 1) := by
          rw [hw0, List.count_append, List.count_cons_self]
        have h2 : pre.count ':' = 0 := List.count_eq_zero.mpr hpre
        have h3 : (A ++ ':' :: P).count ':' = A.count ':' + (P.count ':' + 1) := by
          rw [List.count_append, List.count_cons_self]
        omega
      have hheadpost : ∀ c, post.head? = some c → c ≠ '[' := by
        intro c hc
        have hcmem : c ∈ A ++ ':' :: P := by
          rw [hw0]
          exact List.mem_append_right _ (List.mem_cons_of_mem _ (mem_of_head?_eq post c hc))
        exact (isV6Char_ne_chars c (hall c hcmem)).1
      simp only [stripSocket, hsp]
      split
      · exact socketAddrFromStr_none_of_colons _ hcpost hheadpost
      · exact socketAddrFromStr_none_of_colons _ hcw hhead0
  intro r hr
  unfold parseChars at hr
  rw [hnws, hscheme] at hr
  exact parseAfterStrip_no_port _ hsa r hr

/-- C4 amended witness: the "::1:80" instance - the IPv6 literal "::1", the
digit text "80", and the port component of the successful parse is `None`. -/
theorem C4_unbracketed_port_amended_witness :
    ipv6FromStr [':', ':', '1'] = some ⟨[0, 0, 0, 0, 0, 0, 0, 1]⟩ ∧
    (∀ c ∈ ['8', '0'], isRadixDigit 10 c = true) ∧
    ((IpVersion.V6 ⟨[0, 0, 0, 0, 0, 0, 1, 128]⟩, (none : Option Nat)) :
      IpVersion × Option Nat).2 = none :=
  ⟨by decide, by decide,
    C4_unbracketed_port_amended [':', ':', '1'] ['8', '0'] ⟨[0, 0, 0, 0, 0, 0, 0, 1]⟩
      (by decide) (by decide) (.V6 ⟨[0, 0, 0, 0, 0, 0, 1, 128]⟩, none) (by decide)⟩

/-! ### Dotted-decimal inputs -/

theorem mem_dottedText : ∀ (ms : List Nat) (c : Char), c ∈ dottedText ms →
    isRadixDigit 10 c = true ∨ c = '.'
  | [], c, hc => by cases hc
  | [n], c, hc => Or.inl ((natDigits_spec n).2.1 c hc)
  | n :: m :: rest, c, hc => by
    have hc' : c ∈ natDigits n ++ '.' :: dottedText (m :: rest) := hc
    rcases List.mem_append.mp hc' with h | h
    · exact Or.inl ((natDigits_spec n).2.1 c h)
    · rcases List.mem_cons.mp h with rfl | h
      · exact Or.inr rfl
      · exact mem_dottedText (m :: rest) c h

theorem readPort_none_not_colon (s : List Char)
    (h : ∀ c, s.head? = some c → c ≠ ':') : readPort s = none := by
  unfold readPort
  split
  · rename_i rest
    exact absurd rfl (h ':' rfl)
  · rfl

theorem split_at_first {α : Type} (s : α) : ∀ (a b c d : List α),
    a ++ s :: b = c ++ s :: d → s ∉ a → s ∉ c → a = c ∧ b = d := by
  intro a
  induction a with
  | nil =>
    intro b c d h ha hc
    cases c with
    | nil =>
      injection h with h1 h2
      exact ⟨rfl, h2⟩
    | cons x xs =>
      injection h with h1 h2
      subst h1
      exact absurd (List.mem_cons_self _ _) hc
  | cons y ys ih =>
    intro b c d h ha hc
    cases c with
    | nil =>
      injection h with h1 h2
      subst h1
      exact absurd (List.mem_cons_self _ _) ha
    | cons x xs =>
      injection h with h1 h2
      subst h1
      obtain ⟨e1, e2⟩ := ih b xs d h2 (fun hm => ha (List.mem_cons_of_mem _ hm))
        (fun hm => hc (List.mem_cons_of_mem _ hm))
      exact ⟨by rw [e1], e2⟩

theorem dot_mem_dottedText (m k : Nat) (rest : List Nat) :
    '.' ∈ dottedText (m :: k :: rest) := by
  have hx : dottedText (m :: k :: rest) = natDigits m ++ '.' :: dottedText (k :: rest) := rfl
  rw [hx]
  exact List.mem_append_right _ (List.mem_cons_self _ _)

theorem dotted_split (ms : List Nat) (d r : List Char)
    (h : dottedText ms = d ++ '.' :: r) (hd : ∀ c ∈ d, isRadixDigit 10 c = true) :
    ∃ m ms', ms = m :: ms' ∧ ms' ≠ [] ∧ d = natDigits m ∧ r = dottedText ms' := by
  cases ms with
  | nil =>
    exfalso
    have h' : ([] : List Char) = d ++ '.' :: r := h
    cases d with
    | nil => exact List.noConfusion h'
    | cons x xs => exact List.noConfusion h'
  | cons m ms' =>
    cases ms' with
    | nil =>
      exfalso
      have h' : natDigits m = d ++ '.' :: r := h
      have hdm : '.' ∈ natDigits m := by
        rw [h']
        exact List.mem_append_right _ (List.mem_cons_self _ _)
      exact absurd ((natDigits_spec m).2.1 '.' hdm) (by decide)
    | cons k ks =>
      have h' : natDigits m ++ '.' :: dottedText (k :: ks) = d ++ '.' :: r := h
      obtain ⟨e1, e2⟩ := split_at_first '.' (natDigits m) (dottedText (k :: ks)) d r h'
        (fun hm => absurd ((natDigits_spec m).2.1 '.' hm) (by decide))
        (fun hm => absurd (hd '.' hm) (by decide))
      exact ⟨m, k :: ks, rfl, by simp, e1.symm, e2.symm⟩

theorem dotted_terminal (ms : List Nat) (d : List Char)
    (h : dottedText ms = d) (hd : ∀ c ∈ d, isRadixDigit 10 c = true) (hne : d ≠ []) :
    ∃ m, ms = [m] ∧ d = natDigits m := by
  cases ms with
  | nil => exact absurd h.symm hne
  | cons m ms' =>
    cases ms' with
    | nil => exact ⟨m, rfl, h.symm⟩
    | cons k ks =>
      exfalso
      have hdot : '.' ∈ d := by
        rw [← h]
        exact dot_mem_dottedText m k ks
      exact absurd (hd '.' hdot) (by decide)

theorem readIpv4_full_dotted (ms : List Nat) (a : Ipv4Addr)
    (h : readIpv4 (dottedText ms) = some (a, [])) :
    ms = [a.o1, a.o2, a.o3, a.o4] ∧
      a.o1 ≤ 255 ∧ a.o2 ≤ 255 ∧ a.o3 ≤ 255 ∧ a.o4 ≤ 255 := by
  obtain ⟨d1, d2, d3, d4, hs, hdig, hne, hval, hbnd, -⟩ :=
    readIpv4_some_struct (dottedText ms) a [] h
  rw [List.append_nil] at hs
  have hs1 : dottedText ms = d1 ++ '.' :: (d2 ++ '.' :: (d3 ++ '.' :: d4)) := by
    rw [hs]
    simp [List.append_assoc]
  obtain ⟨m1, ms1, hms, -, hd1, hr1⟩ := dotted_split ms d1 _ hs1 hdig.1
  obtain ⟨m2, ms2, hms12, -, hd2, hr2⟩ := dotted_split ms1 d2 _ hr1.symm hdig.2.1
  obtain ⟨m3, ms3, hms23, -, hd3, hr3⟩ := dotted_split ms2 d3 _ hr2.symm hdig.2.2.1
  obtain ⟨m4, hms34, hd4⟩ := dotted_terminal ms3 d4 hr3.symm hdig.2.2.2 hne.2.2.2
  have e1 : m1 = a.o1 := by
    have hv := (natDigits_spec m1).2.2.1
    rw [← hd1] at hv
    exact hv.symm.trans hval.1
  have e2 : m2 = a.o2 := by
    have hv := (natDigits_spec m2).2.2.1
    rw [← hd2] at hv
    exact hv.symm.trans hval.2.1
  have e3 : m3 = a.o3 := by
    have hv := (natDigits_spec m3).2.2.1
    rw [← hd3] at hv
    exact hv.symm.trans hval.2.2.1
  have e4 : m4 = a.o4 := by
    have hv := (natDigits_spec m4).2.2.1
    rw [← hd4] at hv
    exact hv.symm.trans hval.2.2.2
  refine ⟨?_, hbnd⟩
  rw [hms, hms12, hms23, hms34, e1, e2, e3, e4]

theorem readIpv6_some_colon (s : List Char) (a : Ipv6Addr) (r : List Char)
    (h : readIpv6 s = some (a, r)) : ':' ∈ s := by
  simp only [readIpv6, readGroups] at h
  rcases hgr : readGroupsAux 8 8 0 s with ⟨gs, b, s1⟩
  rw [hgr] at h
  obtain ⟨p, hp, hcount⟩ := readGroupsAux_colons 8 0 8 s gs b s1 hgr
  split at h
  · rename_i h8
    have h8' : gs.length = 8 := h8
    have e0 : (if (0 : Nat) = 0 then 1 else 0) = 1 := rfl
    rw [h8', e0] at hcount
    have hpos : 0 < p.count ':' := by
      cases b with
      | false =>
        rw [Bool.cond_false] at hcount
        omega
      | true =>
        rw [Bool.cond_true] at hcount
        omega
    rw [hp]
    exact List.mem_append_left _ (List.count_pos_iff.mp hpos)
  · split at h
    · cases h
    · split at h
      · rename_i s2 heq
        have heq' : s1 = ':' :: ':' :: s2 := heq
        rw [hp, heq']
        exact List.mem_append_right _ (List.mem_cons_self _ _)
      · cases h

theorem dottedText_quad (a b c d : Nat) :
    dottedText [a, b, c, d] = ipv4Display ⟨a, b, c, d⟩ := by
  simp [dottedText, ipv4Display, List.append_assoc]

theorem parse_dotted_error (ms : List Nat)
    (hbad : ms.length ≠ 4 ∨ ∃ m ∈ ms, 255 < m) :
    parseChars (dottedText ms) =
      .error ("Invalid IP address: " ++ String.mk (dottedText ms)) := by
  have hmem := mem_dottedText ms
  have hnws : removeWhitespace (dottedText ms) = dottedText ms :=
    removeWhitespace_eq_self _ (fun c hc => by
      rcases hmem c hc with h | rfl
      · exact isWsChar_false_of c (by have := (isRadixDigit_ten_iff c).mp h; omega)
      · decide)
  have hscheme : stripScheme (dottedText ms) = dottedText ms := by
    unfold stripScheme
    rw [findSchemeSplit_none_of_no_slash _ (fun hm => by
      rcases hmem '/' hm with h | h
      · exact absurd h (by decide)
      · exact absurd h (by decide))]
    rfl
  have hnc : ':' ∉ dottedText ms := fun hm => by
    rcases hmem ':' hm with h | h
    · exact absurd h (by decide)
    · exact absurd h (by decide)
  have hsock : stripSocket (dottedText ms) = dottedText ms := by
    unfold stripSocket
    rw [splitFirst_none_of_not_mem ':' _ hnc]
  have hpc : (dottedText ms).contains '%' = false := by
    rw [contains_eq_false_iff]
    intro hm
    rcases hmem '%' hm with h | h
    · exact absurd h (by decide)
    · exact absurd h (by decide)
  have hnb : ∀ c, (dottedText ms).head? = some c → c ≠ '[' := by
    intro c hc
    rcases hmem c (mem_of_head?_eq _ c hc) with h | rfl
    · exact (digit_ne_chars c h).2.2.1
    · decide
  have hbare : ipAddrFromStr (dottedText ms) = none := by
    cases hv4 : readIpv4 (dottedText ms) with
    | some pr =>
      obtain ⟨a, rest⟩ := pr
      cases rest with
      | nil =>
        exfalso
        obtain ⟨hms, hb1, hb2, hb3, hb4⟩ := readIpv4_full_dotted ms a hv4
        rcases hbad with hlen | ⟨m, hmm, hmb⟩
        · rw [hms] at hlen
          simp at hlen
        · rw [hms] at hmm
          simp at hmm
          rcases hmm with rfl | rfl | rfl | rfl <;> omega
      | cons x xs => exact ipAddrFromStr_none_v4rest _ a x xs hv4
    | none =>
      apply ipAddrFromStr_none_of_none _ hv4
      cases hv6 : readIpv6 (dottedText ms) with
      | none => rfl
      | some pr => exact absurd (readIpv6_some_colon _ pr.1 pr.2 (by rw [hv6])) hnc
  have hs4 : readSocketV4 (dottedText ms) = none := by
    unfold readSocketV4
    cases hv4 : readIpv4 (dottedText ms) with
    | none => rfl
    | some pr =>
      obtain ⟨a, rest⟩ := pr
      obtain ⟨p4, hw, -, -, -, -⟩ := readIpv4_consumed _ a rest hv4
      have hrport : readPort rest = none := readPort_none_not_colon rest (fun c hc => by
        have hcm : c ∈ dottedText ms := by
          rw [hw]
          exact List.mem_append_right _ (mem_of_head?_eq rest c hc)
        rcases hmem c hcm with h | rfl
        · exact (digit_ne_chars c h).2.2.2.2
        · decide)
      simp only [hrport]
  have hsa : socketAddrFromStr (dottedText ms) = none := by
    apply socketAddrFromStr_none
    · intro r hr
      rw [hs4] at hr
      cases hr
    · exact readSocketV6_not_bracket _ hnb
  have hbr : ¬ ((dottedText ms).head? = some '[' ∧ (dottedText ms).getLast? = some ']') := by
    rintro ⟨hh, -⟩
    exact hnb '[' hh rfl
  unfold parseChars
  rw [hnws, hscheme, hsock, parseAfterStrip_bare _ hsa hbr hpc, bareStage_error _ hbare]

/-! ### Claim C5 -/

/-- C5: a string of exactly four dot-separated decimal octets, each at most
255, parses to `V4` with exactly those octet values and port `None`; a
dotted-decimal string with a component count different from four or with any
component above 255 makes `parse` return an error. -/
theorem C5_dotted_quad (n1 n2 n3 n4 : Nat) (ms : List Nat)
    (h1 : n1 ≤ 255) (h2 : n2 ≤ 255) (h3 : n3 ≤ 255) (h4 : n4 ≤ 255)
    (hbad : ms.length ≠ 4 ∨ ∃ m ∈ ms, 255 < m) :
    parseChars (dottedText [n1, n2, n3, n4]) = .ok (.V4 ⟨n1, n2, n3, n4⟩, none) ∧
    ∃ e, parseChars (dottedText ms) = .error e := by
  constructor
  · rw [dottedText_quad]
    exact parse_ipv4_display ⟨n1, n2, n3, n4⟩ h1 h2 h3 h4
  · exact ⟨_, parse_dotted_error ms hbad⟩

/-- C5 witness: "10.0.0.1" parses to `V4(10,0,0,1)` with no port, and
"300.1.1.1" (an octet above 255) is an error. -/
theorem C5_dotted_quad_witness :
    parseChars (dottedText [10, 0, 0, 1]) = .ok (.V4 ⟨10, 0, 0, 1⟩, none) ∧
    ∃ e, parseChars (dottedText [300, 1, 1, 1]) = .error e :=
  C5_dotted_quad 10 0 0 1 [300, 1, 1, 1] (by decide) (by decide) (by decide) (by decide)
    (by decide)

end ParseIp
